import Mathlib

/-!
# tblbk: the backup scheduler and the backuper pipeline

A shallow embedding of `pkg/backup/scheduler.go`, of the parts of the Go `time` package and
of Go channels that the scheduler relies on, of the backuper that it drives, and of the
choice of the configuration directory in `cmd/tblbk/main.go`, with the properties of the
scheduler, of the backup pipeline and of the command line proved about them.
-/

namespace Tblbk

/-! ## Machine integers and the `time` package -/

/-- Two's-complement wrap of an integer into the range of Go's `int64`. -/
def wrapInt64 (x : Int) : Int :=
  (x + 9223372036854775808) % 18446744073709551616 - 9223372036854775808

/-! A `time.Duration` of Go is a count of nanoseconds held in an `int64`; it is an `Int` of
nanoseconds here. -/

/-- The constant `time.Second`. -/
def Second : Int := 1000000000

/-- The constant `time.Minute`. -/
def Minute : Int := 60 * Second

/-- The smallest `Duration`, `-1 << 63`. -/
def minDuration : Int := -9223372036854775808

/-- The largest `Duration`, `1<<63 - 1`. -/
def maxDuration : Int := 9223372036854775807

/-- Go's `time.Time` read as an absolute instant: nanoseconds elapsed since the zero time
(January 1, year 1, 00:00:00 UTC), the origin that `Truncate` counts from. -/
structure Time where
  ns : Int
deriving DecidableEq, Repr

namespace Time

/-- Whole seconds since the zero time, `t.sec()` in Go. -/
def sec (t : Time) : Int := t.ns / 1000000000

/-- Nanoseconds within the second, in `[0, 999999999]`, `t.nsec()` in Go. -/
def nsec (t : Time) : Int := t.ns % 1000000000

/-- The method `t.Add(d)`: Go splits `d` into seconds and nanoseconds, adds them to the two
parts of `t` and carries between them (quotient and remainder truncate towards zero in Go). -/
def Add (t : Time) (d : Int) : Time :=
  let dsec := Int.tdiv d 1000000000
  let nsec := t.nsec + Int.tmod d 1000000000
  if nsec ≥ 1000000000 then ⟨(t.sec + (dsec + 1)) * 1000000000 + (nsec - 1000000000)⟩
  else if nsec < 0 then ⟨(t.sec + (dsec - 1)) * 1000000000 + (nsec + 1000000000)⟩
  else ⟨(t.sec + dsec) * 1000000000 + nsec⟩

/-- The remainder computed by `div(t, d)` of Go's `time` package, for `d > 0`: it works on the
absolute value of `t`, has a fast path for a `d` of which a second is an even multiple, one
for a `d` that is a whole number of seconds, and a general path (done in 128-bit arithmetic in
Go), and then mirrors the remainder when `t` is negative. -/
def div (t : Time) (d : Int) : Int :=
  let neg := decide (t.sec < 0)
  let nsec0 := if neg then -t.nsec else t.nsec
  let sec0 := if neg then -t.sec else t.sec
  let nsec := if neg ∧ nsec0 < 0 then nsec0 + 1000000000 else nsec0
  let sec := if neg ∧ nsec0 < 0 then sec0 - 1 else sec0
  let r : Int :=
    if d < Second ∧ Second % (d + d) = 0 then nsec % d
    else if d % Second = 0 then (sec % (d / Second)) * Second + nsec
    else (sec * 1000000000 + nsec) % d
  if neg ∧ r ≠ 0 then d - r else r

/-- The method `t.Truncate(d)`: `t` rounded down to a multiple of `d` since the zero time;
`t` unchanged when `d <= 0`. (It also drops the monotonic clock reading, so that a later `Sub`
uses the wall clock.) -/
def Truncate (t : Time) (d : Int) : Time :=
  if d ≤ 0 then t else t.Add (-(div t d))

/-- The method `t.Before(u)`. -/
def Before (t u : Time) : Bool := decide (t.ns < u.ns)

/-- The method `t.Sub(u)` on wall-clock times: the difference as an `int64` count of
nanoseconds, checked by adding it back, and saturated to the largest or smallest `Duration`
when it overflowed. -/
def Sub (t u : Time) : Int :=
  let d := wrapInt64 ((t.sec - u.sec) * Second + (t.nsec - u.nsec))
  if u.Add d = t then d
  else if t.Before u then minDuration
  else maxDuration

end Time

/-! ## Backup results, configuration and options -/

/-- The record a backup produces (`BackupResult`); sizes are `int64` byte counts. -/
structure BackupResult where
  Path : String
  Timestamp : Time
  Size : Int
  SizeAfterVacuum : Int
  SizeAfterCompression : Int
  ElapsedTime : Int
  VacuumElapsedTime : Int
  CompressionElapsedTime : Int
deriving DecidableEq, Repr

/-- The backuper configuration, with the fields the tests read through `backuper.config`. -/
structure Config where
  Vacuum : Bool
  Compression : Bool
  Pruning : Bool
  KeepFiles : Int
deriving DecidableEq, Repr

/-- A functional option (`Option` in the Go package) changes the configuration. -/
abbrev BackupOption := Config → Config

/-- The struct `BackuperOptions`: what is needed to instantiate a backuper. -/
structure BackuperOptions where
  SourcePath : String
  BackupDir : String
  Opts : List BackupOption

/-! ## Channels -/

/-- An unbuffered Go channel, as far as the scheduler uses one: the values handed over to a
receiver so far (oldest first), and whether the channel has been closed. -/
structure Chan (α : Type) where
  delivered : List α
  closed : Bool
deriving DecidableEq, Repr

/-- A new channel, `make(chan T)`. -/
def Chan.make {α : Type} : Chan α := ⟨[], false⟩

/-- The result channel `chan BackupResult`. The program makes it in `NewApp`, hands it to the
scheduler and to the sink, and closes it nowhere, so it is an open channel: a send on it
blocks until the sink receives and never panics. It is represented by the values handed over
so far, oldest first. -/
structure ResultChan where
  delivered : List BackupResult
deriving DecidableEq, Repr

/-! ## The scheduler -/

/-- The `Scheduler` struct; `β` is the type of the backuper it owns. `closeOnce` is the
`sync.Once`, represented by its done flag. -/
structure Scheduler (β : Type) where
  backuper : β
  tickerFrequency : Int
  ch : ResultChan
  close : Chan Unit
  closeOnce : Bool

/-- What a call of `NewScheduler` returns, `(*Scheduler, error)`, together with the calls of
`NewBackuper` it made (their arguments, in order). -/
structure NewSchedulerResult (β : Type) where
  sched : Option (Scheduler β)
  err : Option String
  backuperCalls : List (String × String × List BackupOption)

/-- The constructor `NewScheduler(frequency, ch, opts)`; `newBackuper` is the package's
`NewBackuper`, whose calls are recorded. -/
def NewScheduler {β : Type}
    (newBackuper : String → String → List BackupOption → Except String β) (frequency : Int)
    (ch : ResultChan) (opts : BackuperOptions) : NewSchedulerResult β :=
  if frequency < 1 ∨ frequency ≥ 1440 then
    ⟨none, some "frequency should be in [1,1440)", []⟩
  else
    match newBackuper opts.SourcePath opts.BackupDir opts.Opts with
    | .error err =>
      ⟨none, some ("new backuper: " ++ err), [(opts.SourcePath, opts.BackupDir, opts.Opts)]⟩
    | .ok backuper =>
      ⟨some { ch := ch, backuper := backuper,
               tickerFrequency := wrapInt64 (wrapInt64 frequency * Minute),
               close := Chan.make, closeOnce := false },
       none, [(opts.SourcePath, opts.BackupDir, opts.Opts)]⟩

/-- The first wait of `Run`: `now.Truncate(interval).Add(interval).Sub(now)`. -/
def firstWait (now : Time) (interval : Int) : Int :=
  ((now.Truncate interval).Add interval).Sub now

/-- What the scheduler does that can be observed from outside, in the order it does it. -/
inductive Event
  | log (level : String) (msg : String)
  | backupCalled
  | closeCalled
  | resultSent (r : BackupResult)
  | waitSet (w : Int)
  | signalSent
  | channelClosed
deriving DecidableEq, Repr

/-- The two methods of the backuper that the scheduler calls. A value of `β` is the backuper
together with everything its calls read and change (its handles, the backup directory, the
clock), so that a call is a function of it. -/
structure BackuperOps (β : Type) where
  Backup : β → Except String BackupResult × β
  Close : β → Option String × β

/-- The method `s.backup()`: one backup; after a success the backuper is closed and, when
that went well too, the result is logged and sent on the result channel. -/
def Scheduler.backup {β : Type} (ops : BackuperOps β) (s : Scheduler β) :
    Scheduler β × List Event :=
  match ops.Backup s.backuper with
  | (.error _, b1) =>
    ({ s with backuper := b1 }, [.backupCalled, .log "error" "backup failed"])
  | (.ok result, b1) =>
    match ops.Close b1 with
    | (some _, b2) =>
      ({ s with backuper := b2 }, [.backupCalled, .closeCalled, .log "error" "closing backup"])
    | (none, b2) =>
      ({ s with backuper := b2, ch := ⟨s.ch.delivered ++ [result]⟩ },
       [.backupCalled, .closeCalled, .log "info" "backup succeeded", .resultSent result])

/-- The timer `time.After(d)`: how long it takes until the returned channel delivers, which
is at once for `d <= 0`. -/
def After (d : Int) : Int := if d ≤ 0 then 0 else d

/-- The wait computed at the end of a tick, `s.tickerFrequency - time.Since(startTime)`, an
`int64` subtraction. -/
def nextWait (tickerFrequency elapsed : Int) : Int := wrapInt64 (tickerFrequency - elapsed)

/-- Where the goroutine that executes `Run` stands: not started, in the `select` of the loop
with the timer `time.After(wait)`, or returned. (The body of the timer case runs to its end
before the loop comes back to the `select`, so a tick is one step.) -/
inductive RunState
  | notStarted
  | selecting (wait : Int)
  | returned
deriving DecidableEq, Repr

/-- Where the current call of `Shutdown` stands: none in progress, blocked inside
`closeOnce.Do` in the send on the unbuffered channel `s.close`, or ended by a panic. -/
inductive ShutdownState
  | idle
  | sending
  | panicked
deriving DecidableEq, Repr

/-- The scheduler with the goroutines that use it, and what it has done so far. -/
structure System (β : Type) where
  sched : Scheduler β
  run : RunState
  shutdown : ShutdownState
  trace : List Event

/-- What can happen next: `Run` is started at the instant `now`; `Shutdown` is called (calls
are successive: a call starts when none is in progress); the timer case of the `select` is
taken and processing the tick takes `elapsed`; the shutdown case of the `select` is taken. -/
inductive Action
  | startRun (now : Time)
  | callShutdown
  | tick (elapsed : Int)
  | receiveClose
deriving DecidableEq, Repr

/-- The system right after construction. -/
def System.init {β : Type} (s : Scheduler β) : System β :=
  ⟨s, .notStarted, .idle, []⟩

/-- A receive on `s.close` can proceed: a sender is blocked on it, or it is closed. -/
def System.closeReady {β : Type} (sys : System β) : Bool :=
  decide (sys.shutdown = .sending) || sys.sched.close.closed

/-- The send of `Shutdown` meets the receive of `Run`: the value is handed over, `Run` logs
and returns, `Shutdown` goes on to `close(s.close)` and its `Once` is done. -/
def System.handOver {β : Type} (sys : System β) : System β :=
  { sys with
    sched := { sys.sched with
      close := ⟨sys.sched.close.delivered ++ [()], true⟩, closeOnce := true }
    run := .returned
    shutdown := .idle
    trace := sys.trace ++
      [.signalSent, .log "info" "closing backup scheduler", .channelClosed] }

/-- One step of the system; `none` when the action cannot happen in this state. -/
def System.step {β : Type} (ops : BackuperOps β) (sys : System β) : Action → Option (System β)
  | .startRun now =>
    match sys.run with
    | .notStarted =>
      some { sys with
        run := .selecting (firstWait now sys.sched.tickerFrequency)
        trace := sys.trace ++ [.log "info" "starting backup scheduler"] }
    | _ => none
  | .callShutdown =>
    match sys.shutdown with
    | .idle =>
      if sys.sched.closeOnce then some sys
      else if sys.sched.close.closed then some { sys with shutdown := .panicked }
      else
        match sys.run with
        | .selecting _ => some sys.handOver
        | _ => some { sys with shutdown := .sending }
    | _ => none
  | .tick elapsed =>
    match sys.run with
    | .selecting wait =>
      if 0 ≤ elapsed ∧ (sys.closeReady = true → wait ≤ 0) then
        let r := sys.sched.backup ops
        let wait1 := nextWait sys.sched.tickerFrequency elapsed
        some { sys with
          sched := r.1
          run := .selecting wait1
          trace := sys.trace ++ r.2 ++ [.waitSet wait1] }
      else none
    | _ => none
  | .receiveClose =>
    match sys.run with
    | .selecting _ =>
      match sys.shutdown with
      | .sending => some sys.handOver
      | _ =>
        if sys.sched.close.closed then
          some { sys with
            run := .returned
            trace := sys.trace ++ [.log "info" "closing backup scheduler"] }
        else none
    | _ => none

/-- A run of the system through a list of actions; `none` as soon as one cannot happen. -/
def System.exec {β : Type} (ops : BackuperOps β) (sys : System β) :
    List Action → Option (System β)
  | [] => some sys
  | a :: as =>
    match sys.step ops a with
    | some sys1 => sys1.exec ops as
    | none => none

/-- The states the system can be in: those reached, step by step, from a scheduler that
`NewScheduler` returned. -/
inductive Reachable {β : Type} (ops : BackuperOps β) : System β → Prop
  | init (newBackuper : String → String → List BackupOption → Except String β) (f : Int)
      (ch : ResultChan) (opts : BackuperOptions) (s : Scheduler β)
      (h : (NewScheduler newBackuper f ch opts).sched = some s) : Reachable ops (System.init s)
  | step (sys sys1 : System β) (a : Action) (hr : Reachable ops sys)
      (h : sys.step ops a = some sys1) : Reachable ops sys1

/-- What holds of every reachable state: before the `Once` is done the shutdown channel is
as made, `Run` has not returned and nothing was sent or closed; after it, exactly one value
was handed over, the channel is closed, `Run` has returned and no call is in progress. -/
def System.Inv {β : Type} (sys : System β) : Prop :=
  (sys.sched.closeOnce = false →
    sys.sched.close = Chan.make ∧ sys.run ≠ .returned ∧ sys.shutdown ≠ .panicked ∧
    sys.trace.count .signalSent = 0 ∧ sys.trace.count .channelClosed = 0) ∧
  (sys.sched.closeOnce = true →
    sys.sched.close = ⟨[()], true⟩ ∧ sys.run = .returned ∧ sys.shutdown = .idle ∧
    sys.trace.count .signalSent = 1 ∧ sys.trace.count .channelClosed = 1)

/-! ## The backuper

The body of `backuper.go` is missing from the sources; its tests, and the calls of it in
`scheduler.go` and `app.go`, are there. The backuper is modelled from the specification. -/

/-- Modelled from the spec: the error kinds of the backuper (section 7); the body of
`backuper.go` is missing. -/
inductive ErrorKind
  | SourceUnavailable
  | CopyFailed
  | VacuumFailed
  | CompressionFailed
  | Closed
deriving DecidableEq, Repr

/-- Modelled from the spec: the defaults of the configuration, "all disabled"; the body of
`backuper.go` is missing. The spec gives no default keep-count, which has no effect while
pruning is disabled; it is 0 here. -/
def DefaultConfig : Config := ⟨false, false, false, 0⟩

/-- Modelled from the spec: the option `WithVacuum(bool)`, a toggle; the body of
`backuper.go` is missing. -/
def WithVacuum (enabled : Bool) : BackupOption := fun c => { c with Vacuum := enabled }

/-- Modelled from the spec: the option `WithCompression(bool)`, a toggle; the body of
`backuper.go` is missing. -/
def WithCompression (enabled : Bool) : BackupOption := fun c => { c with Compression := enabled }

/-- Modelled from the spec: the option `WithPruning(bool, keepFiles int)`; the body of
`backuper.go` is missing. -/
def WithPruning (enabled : Bool) (keepFiles : Int) : BackupOption :=
  fun c => { c with Pruning := enabled, KeepFiles := keepFiles }

/-- Modelled from the spec: the `Backuper` (section 3): the source, the backup directory,
the configuration, the injectable file creator `(dir, timestamp) → path, err` that performs
the raw copy, and whether `Close` has released the source handle; the body of `backuper.go`
is missing. -/
structure Backuper where
  sourcePath : String
  dir : String
  config : Config
  fileCreator : String → Time → Except String String
  closed : Bool

/-- Modelled from the spec: `NewBackuper(sourcePath, backupDir, ...options)` (section 4.1):
it fails with `SourceUnavailable` when the source database cannot be opened, and otherwise
applies the options, in order, to the defaults; the body of `backuper.go` is missing.
`sourceOpens` says which sources can be opened, `createBackupFile` is the production file
creator. -/
def NewBackuper (sourceOpens : String → Bool)
    (createBackupFile : String → Time → Except String String)
    (sourcePath backupDir : String) (opts : List BackupOption) : Except ErrorKind Backuper :=
  if sourceOpens sourcePath then
    .ok { sourcePath := sourcePath, dir := backupDir,
          config := opts.foldl (fun c o => o c) DefaultConfig,
          fileCreator := createBackupFile, closed := false }
  else .error .SourceUnavailable

/-- What is left of `s` after its prefix `p`, when it starts with `p`. -/
def dropPrefix : List Char → List Char → Option (List Char)
  | [], s => some s
  | _ :: _, [] => none
  | c :: p, d :: s => if c = d then dropPrefix p s else none

/-- What is left of `s` before its suffix `p`, when it ends with `p`. -/
def dropSuffix (p s : List Char) : Option (List Char) :=
  (dropPrefix p.reverse s.reverse).map List.reverse

/-- Modelled from the spec: the scan of the backup directory, whose body in `backuper.go` is
missing: the name of the file at `path` when it lies directly in the directory `dir`. -/
def nameIn (dir path : String) : Option (List Char) :=
  match dropPrefix (dir.toList ++ ['/']) path.toList with
  | some name => if '/' ∈ name then none else some name
  | none => none

/-- Modelled from the spec: the backup naming pattern (section 6), `tbl_backup_<timestamp>.db`
and `.db.zst` when compressed; the body of `backuper.go` is missing. The result is the text
between the prefix and the suffix of a name that matches. -/
def backupStem (name : List Char) : Option (List Char) :=
  match dropPrefix "tbl_backup_".toList name with
  | none => none
  | some rest =>
    match dropSuffix ".db.zst".toList rest with
    | some stem => some stem
    | none => dropSuffix ".db".toList rest

/-- The number written by a list of decimal digits. -/
def digitsValue (cs : List Char) : Option Nat :=
  if cs.all Char.isDigit then some (cs.foldl (fun n c => 10 * n + (c.toNat - 48)) 0) else none

/-- The number of days of a month. -/
def daysIn (year month : Nat) : Nat :=
  if month = 2 then
    if (year % 4 = 0 ∧ year % 100 ≠ 0) ∨ year % 400 = 0 then 29 else 28
  else if month = 4 ∨ month = 6 ∨ month = 9 ∨ month = 11 then 30
  else 31

/-- Modelled from the spec: the instant that an embedded timestamp names (the body of
`backuper.go` is missing): `num / 10 ^ digits` seconds since 1970-01-01T00:00:00Z, which is
exact also for a fraction of a second. -/
structure Stamp where
  num : Int
  digits : Nat
deriving DecidableEq, Repr

/-- Modelled from the spec: the order of the embedded timestamps, by the instants they name
(the body of `backuper.go` is missing): `a` is not later than `b`. -/
def Stamp.le (a b : Stamp) : Prop :=
  a.num * ((10 ^ b.digits : Nat) : Int) ≤ b.num * ((10 ^ a.digits : Nat) : Int)

/-- The order of instants is computed by comparing integers. -/
instance Stamp.decLe (a b : Stamp) : Decidable (Stamp.le a b) :=
  inferInstanceAs
    (Decidable (a.num * ((10 ^ b.digits : Nat) : Int) ≤ b.num * ((10 ^ a.digits : Nat) : Int)))

/-- Exactly `n` decimal digits at the front of `cs`: their value, and what follows them. -/
def takeDigits (n : Nat) (cs : List Char) : Option (Nat × List Char) :=
  if (cs.take n).length = n then
    match digitsValue (cs.take n) with
    | some v => some (v, cs.drop n)
    | none => none
  else none

/-- The character `c` at the front of a text: what follows it. -/
def expectChar (c : Char) : List Char → Option (List Char)
  | d :: cs => if d = c then some cs else none
  | [] => none

/-- The colon between two fields, in the form that is written with colons. -/
def expectColon (colons : Bool) (cs : List Char) : Option (List Char) :=
  if colons then expectChar ':' cs else some cs

/-- The separator of date and time, `T`, which RFC 3339 also allows in lower case. -/
def expectT : List Char → Option (List Char)
  | c :: rest => if c = 'T' ∨ c = 't' then some rest else none
  | [] => none

/-- The optional fraction of a second, a point and at least one digit: the digits read as a
number, how many they are, and what follows them. -/
def takeFraction : List Char → Option ((Nat × Nat) × List Char)
  | [] => some ((0, 0), [])
  | c :: rest =>
    if c = '.' then
      if rest.takeWhile Char.isDigit = [] then none
      else
        match digitsValue (rest.takeWhile Char.isDigit) with
        | some v => some ((v, (rest.takeWhile Char.isDigit).length), rest.dropWhile Char.isDigit)
        | none => none
    else some ((0, 0), c :: rest)

/-- The offset from UTC that ends a timestamp, in seconds: `Z` (or `z`), or a sign, two
digits of hours (00 to 23) and two of minutes (00 to 59). -/
def parseOffset (colons : Bool) : List Char → Option Int
  | [] => none
  | c :: rest =>
    if (c = 'Z' ∨ c = 'z') ∧ rest = [] then some 0
    else if c = '+' ∨ c = '-' then
      (takeDigits 2 rest).bind fun h =>
      (expectColon colons h.2).bind fun rest1 =>
      (takeDigits 2 rest1).bind fun m =>
      if m.2 = [] ∧ h.1 ≤ 23 ∧ m.1 ≤ 59 then
        some ((if c = '-' then -1 else 1) * ((h.1 : Int) * 3600 + (m.1 : Int) * 60))
      else none
    else none

/-- The number of days from 1970-01-01 to a date of the Gregorian calendar. -/
def daysFromCivil (y m d : Nat) : Int :=
  let y1 : Int := if m ≤ 2 then (y : Int) - 1 else y
  let era : Int := y1 / 400
  let yoe : Int := y1 - era * 400
  let mp : Int := if m ≤ 2 then (m : Int) + 9 else (m : Int) - 3
  let doy : Int := (153 * mp + 2) / 5 + (d : Int) - 1
  let doe : Int := yoe * 365 + yoe / 4 - yoe / 100 + doy
  era * 146097 + doe - 719468

/-- The date `YYYY-MM-DD` of a timestamp, a day that exists: year, month, day, and what
follows. -/
def parseDate (cs : List Char) : Option ((Nat × Nat × Nat) × List Char) :=
  (takeDigits 4 cs).bind fun y =>
  (expectChar '-' y.2).bind fun cs1 =>
  (takeDigits 2 cs1).bind fun mo =>
  (expectChar '-' mo.2).bind fun cs2 =>
  (takeDigits 2 cs2).bind fun d =>
  if 1 ≤ mo.1 ∧ mo.1 ≤ 12 ∧ 1 ≤ d.1 ∧ d.1 ≤ daysIn y.1 mo.1 then
    some ((y.1, mo.1, d.1), d.2)
  else none

/-- The time of day `HH:MM:SS` of a timestamp (hours 00 to 23, minutes 00 to 59, seconds 00
to 60, the last for a leap second): hour, minute, second, and what follows. -/
def parseClock (colons : Bool) (cs : List Char) : Option ((Nat × Nat × Nat) × List Char) :=
  (takeDigits 2 cs).bind fun h =>
  (expectColon colons h.2).bind fun cs1 =>
  (takeDigits 2 cs1).bind fun mi =>
  (expectColon colons mi.2).bind fun cs2 =>
  (takeDigits 2 cs2).bind fun s =>
  if h.1 ≤ 23 ∧ mi.1 ≤ 59 ∧ s.1 ≤ 60 then some ((h.1, mi.1, s.1), s.2) else none

/-- A timestamp of RFC 3339, `YYYY-MM-DDTHH:MM:SS`, an optional fraction of a second, and
`Z` or a numeric offset, read as the instant it names; written with its colons or, for
`colons = false`, with all of them stripped. -/
def parseTimestampWith (colons : Bool) (cs : List Char) : Option Stamp :=
  (parseDate cs).bind fun date =>
  (expectT date.2).bind fun cs1 =>
  (parseClock colons cs1).bind fun clock =>
  (takeFraction clock.2).bind fun frac =>
  (parseOffset colons frac.2).bind fun off =>
  some ⟨(daysFromCivil date.1.1 date.1.2.1 date.1.2.2 * 86400 + (clock.1.1 : Int) * 3600 +
      (clock.1.2.1 : Int) * 60 + (clock.1.2.2 : Int) - off) * ((10 ^ frac.1.2 : Nat) : Int) +
    (frac.1.1 : Int), frac.1.2⟩

/-- Modelled from the spec: reading the timestamp embedded in a backup file name, an RFC 3339
timestamp with its colons stripped (section 4.1) or, as in the names the tests expect, with
its colons kept; the body of `backuper.go` is missing. The result is the instant named;
`none` for a text that is not such a timestamp. -/
def parseTimestamp (text : List Char) : Option Stamp :=
  match parseTimestampWith true text with
  | some t => some t
  | none => parseTimestampWith false text

/-- Modelled from the spec: whether the file at `path` is a file of the backup directory
`dir` whose name matches the backup naming pattern; the body of `backuper.go` is missing. -/
def matchesPattern (dir path : String) : Bool :=
  match nameIn dir path with
  | some name => (backupStem name).isSome
  | none => false

/-- Modelled from the spec: the timestamp embedded in the name of the file at `path`, for a
file of the backup directory `dir` that matches the naming pattern and whose timestamp can be
parsed; the body of `backuper.go` is missing. -/
def embeddedTimestamp (dir path : String) : Option Stamp :=
  match nameIn dir path with
  | some name =>
    match backupStem name with
    | some stem => parseTimestamp stem
    | none => none
  | none => none

/-- Modelled from the spec: the backup files that pruning considers: the files of the
directory that match the naming pattern and have a parsable timestamp, each with its
timestamp (a file with an unparsable timestamp is prune-ineligible); the body of
`backuper.go` is missing. -/
def eligible (dir : String) (files : List String) : List (String × Stamp) :=
  files.filterMap (fun p => (embeddedTimestamp dir p).map (fun t => (p, t)))

/-- Modelled from the spec: the files that match the naming pattern but have no parsable
timestamp, which pruning skips; the body of `backuper.go` is missing. -/
def unparsable (dir : String) (files : List String) : List String :=
  files.filter (fun p => matchesPattern dir p && (embeddedTimestamp dir p).isNone)

/-- Modelled from the spec: the order of pruning, newest first by the embedded timestamp;
the body of `backuper.go` is missing. -/
def newestFirst (l : List (String × Stamp)) : List (String × Stamp) :=
  l.insertionSort (fun a b => Stamp.le b.2 a.2)

/-- Modelled from the spec: the files pruning sets out to delete: all but the `keepFiles`
most recent, all of them for `keepFiles <= 0`; the body of `backuper.go` is missing. -/
def doomed (keepFiles : Int) (dir : String) (files : List String) : List String :=
  ((newestFirst (eligible dir files)).drop keepFiles.toNat).map Prod.fst

/-- Modelled from the spec: the prune stage (section 4.1, step 4) over the current contents
of the directory; a deletion that fails (`removeFails`) is logged and leaves the file; the
body of `backuper.go` is missing. -/
def prune (keepFiles : Int) (removeFails : String → Bool) (dir : String)
    (files : List String) : List String :=
  files.filter (fun p => !(decide (p ∈ doomed keepFiles dir files)) || removeFails p)

/-- Modelled from the spec: the file system that `Backup` acts on, which the missing
`backuper.go` reaches through the operating system: the files that exist, by their paths (a
path occurs once), and the size in bytes of the file at a path. -/
structure World where
  files : List String
  size : String → Int

/-- A file of `size` bytes is written at `path`, new or in place of the one there. -/
def World.write (w : World) (path : String) (size : Int) : World :=
  { files := if path ∈ w.files then w.files else w.files ++ [path]
    size := fun p => if p = path then size else w.size p }

/-- The file at `path` is deleted. -/
def World.remove (w : World) (path : String) : World :=
  { w with files := w.files.filter (fun p => p ≠ path) }

/-- Modelled from the spec: what a stage of the missing `backuper.go` does when it runs, as
far as the surroundings decide it: the size of the file it leaves and the time it takes. -/
structure Measure where
  size : Int
  elapsed : Int
deriving DecidableEq, Repr

/-- Modelled from the spec: what the surroundings contribute to one call of `Backup` of the
missing `backuper.go`: the time of the call, the number of bytes the copy writes, how the
vacuum and the compression go when they run, which deletions fail, and the wall time of the
whole call. -/
structure Env where
  timestamp : Time
  copiedSize : Int
  vacuum : Except String Measure
  compress : Except String Measure
  removeFails : String → Bool
  elapsed : Int

/-- What a stage hands on: the path of the artifact, the two fields of the result that belong
to the stage, and the files as the stage leaves them. -/
structure Staged where
  path : String
  size : Int
  elapsed : Int
  world : World

/-- Modelled from the spec: the vacuum stage (section 4.1, step 2); the body of `backuper.go`
is missing. When enabled it rewrites the artifact in place and records the time it took and
the size the artifact then has on disk; when disabled it does nothing and its two fields
stay 0. -/
def vacuumStage (enabled : Bool) (env : Env) (path : String) (w : World) :
    Except ErrorKind Staged :=
  if enabled then
    match env.vacuum with
    | .error _ => .error .VacuumFailed
    | .ok m =>
      .ok { path := path, size := (w.write path m.size).size path, elapsed := m.elapsed,
            world := w.write path m.size }
  else .ok { path := path, size := 0, elapsed := 0, world := w }

/-- Modelled from the spec: the compression stage (section 4.1, step 3); the body of
`backuper.go` is missing. When enabled it writes the compressed file at the path with the
added suffix `.zst`, deletes the uncompressed artifact, and records the time it took and the
size the compressed file has on disk; when disabled it does nothing and its two fields
stay 0. -/
def compressStage (enabled : Bool) (env : Env) (path : String) (w : World) :
    Except ErrorKind Staged :=
  if enabled then
    match env.compress with
    | .error _ => .error .CompressionFailed
    | .ok m =>
      .ok { path := path ++ ".zst"
            size := ((w.write (path ++ ".zst") m.size).remove path).size (path ++ ".zst")
            elapsed := m.elapsed
            world := (w.write (path ++ ".zst") m.size).remove path }
  else .ok { path := path, size := 0, elapsed := 0, world := w }

/-- Modelled from the spec: the stages copy, vacuum and compress of `Backup(ctx)` (section
4.1, steps 1 to 3) with the result they measure, on the files that exist; the body of
`backuper.go` is missing. A closed backuper fails with `Closed`. The copy is made by the file
creator, which returns its path; `Size` is the size the copy has on disk. A failed copy
leaves no file; a failed vacuum or compression leaves the artifact of the stage before and
ends the call. -/
def Backuper.produce (b : Backuper) (env : Env) (w : World) :
    Except ErrorKind BackupResult × World :=
  if b.closed then (.error .Closed, w)
  else
    match b.fileCreator b.dir env.timestamp with
    | .error _ => (.error .CopyFailed, w)
    | .ok path =>
      match vacuumStage b.config.Vacuum env path (w.write path env.copiedSize) with
      | .error e => (.error e, w.write path env.copiedSize)
      | .ok vac =>
        match compressStage b.config.Compression env path vac.world with
        | .error e => (.error e, vac.world)
        | .ok comp =>
          (.ok { Path := comp.path
                 Timestamp := env.timestamp
                 Size := (w.write path env.copiedSize).size path
                 SizeAfterVacuum := vac.size
                 SizeAfterCompression := comp.size
                 ElapsedTime := env.elapsed
                 VacuumElapsedTime := vac.elapsed
                 CompressionElapsedTime := comp.elapsed }, comp.world)

/-- Modelled from the spec: `Backup(ctx)` (section 4.1): the stages copy, vacuum and
compress, then, when they succeeded and pruning is enabled, the prune stage over the contents
of the backup directory; the body of `backuper.go` is missing. A call that a stage aborted
returns no result and does not prune. -/
def Backuper.Backup (b : Backuper) (env : Env) (w : World) :
    Except ErrorKind BackupResult × World :=
  match b.produce env w with
  | (.error e, w2) => (.error e, w2)
  | (.ok r, w2) =>
    if b.config.Pruning then
      (.ok r, { w2 with files := prune b.config.KeepFiles env.removeFails b.dir w2.files })
    else (.ok r, w2)

/-- The number of files of the directory `dir` that match the backup naming pattern, what
`requireFileCount` of the tests counts in a directory that holds backup files only. -/
def backupFileCount (dir : String) (files : List String) : Nat :=
  (files.filter (fun p => matchesPattern dir p)).length

/-- Modelled from the spec: `Close()`, which releases the source handle, after which `Backup`
fails with `Closed`; the body of `backuper.go` is missing. -/
def Backuper.Close (b : Backuper) : Backuper := { b with closed := true }

/-! ## The command line (`cmd/tblbk/main.go`) and the `path` package -/

/-- The elements of a path between its slashes; consecutive slashes give empty elements. -/
def splitSlash (cs : List Char) : List (List Char) :=
  cs.foldr (fun c acc =>
    if c = '/' then [] :: acc
    else
      match acc with
      | [] => [[c]]
      | seg :: rest => (c :: seg) :: rest) [[]]

/-- One element of a path meets what `path.Clean` has kept so far (most recent first): an
empty element and `.` are dropped; `..` removes the element before it, is kept after a kept
`..` or at the start of a path that is not rooted, and is dropped at the root; any other
element is kept. -/
def cleanStep (rooted : Bool) (kept : List (List Char)) (seg : List Char) : List (List Char) :=
  if seg = [] ∨ seg = ['.'] then kept
  else if seg = ['.', '.'] then
    match kept with
    | top :: rest => if top = ['.', '.'] then seg :: kept else rest
    | [] => if rooted then [] else [seg]
  else seg :: kept

/-- The function `path.Clean` of Go: the shortest path equivalent to `p` by lexical
processing; `.` for the empty path. -/
def pathClean (p : String) : String :=
  if p = "" then "."
  else
    let rooted := decide (p.toList.head? = some '/')
    let kept := ((splitSlash p.toList).foldl (cleanStep rooted) []).reverse
    if rooted then String.mk ('/' :: List.intercalate ['/'] kept)
    else if kept = [] then "."
    else String.mk (List.intercalate ['/'] kept)

/-- The function `path.Join` of Go: the elements from the first non-empty one on, separated
by slashes, and the result cleaned; the empty string when all elements are empty. -/
def pathJoin (elem : List String) : String :=
  match elem.dropWhile (fun e => e = "") with
  | [] => ""
  | e :: es => pathClean (String.intercalate "/" (e :: es))

/-- The function `defaultConfigLocation(cCtx)`: `dirFlag` is `cCtx.String("dir")`, the value
of the flag `--dir` and empty when the flag is not given; `homeDir` is what `homedir.Dir()`
returns, which is asked for only when the flag is empty. The result is the pair
`(string, error)`. -/
def defaultConfigLocation (dirFlag : String) (homeDir : Except String String) :
    String × Option String :=
  if dirFlag = "" then
    match homeDir with
    | .error err => ("", some ("home dir: " ++ err))
    | .ok home => (pathJoin [home, ".tblk"], none)
  else (dirFlag, none)

/-- The path of `config.toml` that the actions of `initCmd` (which creates the file) and of
`daemonCmd` (which reads it) compute, or the error they return before they touch a file. -/
def configFile (dirFlag : String) (homeDir : Except String String) : Except String String :=
  match defaultConfigLocation dirFlag homeDir with
  | (_, some err) => .error ("default config location: " ++ err)
  | (dir, none) => .ok (pathJoin [dir, "config.toml"])

/-! ## Sample values -/

/-- A backup result, the one of the repository's tests. -/
def sampleResult : BackupResult :=
  { Path := "backups/tbl_backup_2009-11-17T20:34:58Z.db"
    Timestamp := ⟨63394086898651387237⟩
    Size := 311296
    SizeAfterVacuum := 0
    SizeAfterCompression := 0
    ElapsedTime := 8000000
    VacuumElapsedTime := 0
    CompressionElapsedTime := 0 }

/-- A scheduler as `NewScheduler` builds it for a frequency of 60 minutes. -/
def sampleScheduler {β : Type} (b : β) : Scheduler β :=
  { backuper := b, tickerFrequency := 3600000000000, ch := ⟨[]⟩, close := Chan.make,
    closeOnce := false }

/-- A backuper whose `Backup` succeeds and whose `Close` fails, keeping the list of the calls
made on it. -/
def closeFailsOps : BackuperOps (List String) :=
  { Backup := fun b => (.ok sampleResult, b ++ ["Backup"])
    Close := fun b => (some "close failed", b ++ ["Close"]) }

/-- A backuper whose `Backup` and `Close` succeed, keeping the list of the calls made on it. -/
def recordingOps : BackuperOps (List String) :=
  { Backup := fun b => (.ok sampleResult, b ++ ["Backup"])
    Close := fun b => (none, b ++ ["Close"]) }

/-- A backuper whose `Backup` fails. -/
def failingOps : BackuperOps (List String) :=
  { Backup := fun b => (.error "copy failed", b ++ ["Backup"])
    Close := fun b => (none, b ++ ["Close"]) }

/-- A file creator as the tests substitute one: it makes the file of a fixed name. -/
def fixedCreator (name : String) : String → Time → Except String String :=
  fun dir _ => .ok (dir ++ "/" ++ name)

/-- A backuper on the directory `backups` with the given configuration and file name. -/
def sampleBackuper (config : Config) (name : String) : Backuper :=
  { sourcePath := "source.db", dir := "backups", config := config,
    fileCreator := fixedCreator name, closed := false }

/-- Surroundings with the measurements of the repository's tests; `removeFails` says whether
deletions fail. -/
def sampleEnv (removeFails : Bool) : Env :=
  { timestamp := ⟨63394086898651387237⟩
    copiedSize := 311296
    vacuum := .ok ⟨159744, 12000000⟩
    compress := .ok ⟨39934, 30000000⟩
    removeFails := fun _ => removeFails
    elapsed := 50000000 }

/-- Surroundings in which the vacuum and the compression measure what is given. -/
def measuredEnv (vacuum compress : Measure) : Env :=
  { timestamp := ⟨63394086898651387237⟩
    copiedSize := 311296
    vacuum := .ok vacuum
    compress := .ok compress
    removeFails := fun _ => false
    elapsed := 50000000 }

/-- A backup directory that holds the given files, each of 4096 bytes. -/
def sampleWorld (files : List String) : World :=
  { files := files, size := fun _ => 4096 }

/-! ## Facts about the `time` model -/

theorem Time.sec_nsec (t : Time) : t.sec * 1000000000 + t.nsec = t.ns := by
  unfold Time.sec Time.nsec
  omega

theorem Time.nsec_range (t : Time) : 0 ≤ t.nsec ∧ t.nsec < 1000000000 := by
  unfold Time.nsec
  omega

theorem Time.Add_ns (t : Time) (d : Int) : (t.Add d).ns = t.ns + d := by
  have h1 := Int.tdiv_add_tmod d 1000000000
  have h2 := t.sec_nsec
  unfold Time.Add
  simp only []
  split_ifs <;> simp only [] <;> omega

/-- A remainder is determined by its range and by the divisibility of what is left. -/
theorem emod_unique (t d r : Int) (h0 : 0 ≤ r) (h1 : r < d) (h2 : d ∣ t - r) : t % d = r := by
  obtain ⟨k, hk⟩ := h2
  have ht : t = r + d * k := by omega
  rw [ht, Int.add_mul_emod_self_left]
  exact Int.emod_eq_of_lt h0 h1

/-- The three paths of `div` compute the same remainder of `a` seconds and `n` nanoseconds. -/
theorem div_paths (a n d : Int) (hn0 : 0 ≤ n) (hn1 : n < 1000000000) (hd : 0 < d) :
    (if d < Second ∧ Second % (d + d) = 0 then n % d
     else if d % Second = 0 then (a % (d / Second)) * Second + n
     else (a * 1000000000 + n) % d) = (a * 1000000000 + n) % d := by
  unfold Second
  split_ifs with h1 h2
  · -- a second is a multiple of `d`
    obtain ⟨k, hk⟩ := Int.dvd_of_emod_eq_zero h1.2
    symm
    apply emod_unique _ _ _ (Int.emod_nonneg _ (by omega)) (Int.emod_lt_of_pos _ hd)
    refine ⟨a * (2 * k) + n / d, ?_⟩
    have h3 := Int.emod_add_ediv n d
    have h4 : a * 1000000000 = a * ((d + d) * k) := by rw [← hk]
    linear_combination h4 - h3
  · -- `d` is a whole number of seconds
    have hq : d = 1000000000 * (d / 1000000000) := by omega
    have hq0 : 0 < d / 1000000000 := by omega
    generalize d / 1000000000 = q at hq hq0
    subst hq
    have h3 := Int.emod_add_ediv a q
    have h4 := Int.emod_nonneg a (show q ≠ 0 by omega)
    have h5 := Int.emod_lt_of_pos a hq0
    symm
    apply emod_unique
    · nlinarith
    · nlinarith
    · exact ⟨a / q, by linear_combination (-1000000000 : Int) * h3⟩
  · rfl

/-- Mirroring the remainder of `-x` gives the remainder of `x`. -/
theorem neg_rem (x d : Int) (hd : 0 < d) :
    (if (-x) % d ≠ 0 then d - (-x) % d else (-x) % d) = x % d := by
  have h3 := Int.emod_add_ediv (-x) d
  have h4 := Int.emod_nonneg (-x) (show d ≠ 0 by omega)
  have h5 := Int.emod_lt_of_pos (-x) hd
  symm
  split_ifs with h
  · apply emod_unique _ _ _ (by omega) (by omega)
    exact ⟨-((-x) / d) - 1, by linear_combination h3⟩
  · have hr : (-x) % d = 0 := by omega
    apply emod_unique _ _ _ (by omega) (by omega)
    exact ⟨-((-x) / d), by linear_combination h3 - 2 * hr⟩

theorem Time.div_eq (t : Time) (d : Int) (hd : 0 < d) : Time.div t d = t.ns % d := by
  have h1 := t.sec_nsec
  have h2 := t.nsec_range
  unfold Time.div
  simp only [decide_eq_true_eq]
  by_cases hneg : t.sec < 0
  · simp only [hneg, if_true, true_and]
    by_cases hz : -t.nsec < 0
    · simp only [hz, if_true]
      rw [div_paths _ _ d (by omega) (by omega) hd]
      have e : (-t.sec - 1) * 1000000000 + (-t.nsec + 1000000000) = -t.ns := by omega
      rw [e]
      exact neg_rem t.ns d hd
    · simp only [hz, if_false]
      rw [div_paths _ _ d (by omega) (by omega) hd]
      have e : -t.sec * 1000000000 + -t.nsec = -t.ns := by omega
      rw [e]
      exact neg_rem t.ns d hd
  · simp only [hneg, if_false, false_and]
    rw [div_paths _ _ d h2.1 h2.2 hd, h1]

theorem Time.Truncate_ns (t : Time) (d : Int) (hd : 0 < d) :
    (t.Truncate d).ns = t.ns - t.ns % d := by
  unfold Time.Truncate
  rw [if_neg (not_le.mpr hd), Time.Add_ns, Time.div_eq t d hd]
  omega

theorem Time.Sub_eq (t u : Time) (h1 : minDuration ≤ t.ns - u.ns)
    (h2 : t.ns - u.ns ≤ maxDuration) :
    t.Sub u = t.ns - u.ns := by
  have e1 := t.sec_nsec
  have e2 := u.sec_nsec
  unfold minDuration at h1
  unfold maxDuration at h2
  have hd : wrapInt64 ((t.sec - u.sec) * Second + (t.nsec - u.nsec)) = t.ns - u.ns := by
    unfold wrapInt64 Second
    omega
  unfold Time.Sub
  simp only [hd]
  rw [if_pos]
  have hns := u.Add_ns (t.ns - u.ns)
  rcases hA : u.Add (t.ns - u.ns) with ⟨a⟩
  rw [hA] at hns
  rcases t with ⟨b⟩
  simp only at hns
  simp only [Time.mk.injEq]
  omega

theorem firstWait_eq (now : Time) (d : Int) (hd : 0 < d) (hmax : d ≤ maxDuration) :
    firstWait now d = d - now.ns % d := by
  have h3 := Int.emod_nonneg now.ns (show d ≠ 0 by omega)
  have h4 := Int.emod_lt_of_pos now.ns hd
  unfold maxDuration at hmax
  unfold firstWait
  rw [Time.Sub_eq, Time.Add_ns, Time.Truncate_ns _ _ hd]
  · omega
  · rw [Time.Add_ns, Time.Truncate_ns _ _ hd]
    unfold minDuration
    omega
  · rw [Time.Add_ns, Time.Truncate_ns _ _ hd]
    unfold maxDuration
    omega

/-! ## C1: construction of the scheduler -/

/-- In the valid range the conversion `time.Duration(frequency) * time.Minute` does not
overflow: the tick interval is `frequency` minutes. -/
theorem tickerFrequency_exact (f : Int) (h1 : 1 ≤ f) (h2 : f < 1440) :
    wrapInt64 (wrapInt64 f * Minute) = f * Minute := by
  unfold wrapInt64 Minute Second
  omega

/-- C1: `NewScheduler` returns an error together with a nil scheduler exactly when the
frequency is below 1, or at least 1440, or `NewBackuper` fails on the given source path,
backup directory and options; outside `[1,1440)` it returns the frequency error and never
calls `NewBackuper`; inside `[1,1440)` with a successful `NewBackuper` it returns no error
and a scheduler that holds that backuper and channel and ticks every `frequency` minutes. -/
theorem NewScheduler_contract {β : Type}
    (newBackuper : String → String → List BackupOption → Except String β)
    (f : Int) (ch : ResultChan) (opts : BackuperOptions) :
    (((NewScheduler newBackuper f ch opts).err ≠ none ∧
        (NewScheduler newBackuper f ch opts).sched = none) ↔
      (f < 1 ∨ f ≥ 1440 ∨
        ∃ e, newBackuper opts.SourcePath opts.BackupDir opts.Opts = .error e)) ∧
    ((f < 1 ∨ f ≥ 1440) →
      (NewScheduler newBackuper f ch opts).err = some "frequency should be in [1,1440)" ∧
      (NewScheduler newBackuper f ch opts).sched = none ∧
      (NewScheduler newBackuper f ch opts).backuperCalls = []) ∧
    (∀ b, 1 ≤ f → f < 1440 →
      newBackuper opts.SourcePath opts.BackupDir opts.Opts = .ok b →
      (NewScheduler newBackuper f ch opts).err = none ∧
      (NewScheduler newBackuper f ch opts).backuperCalls =
        [(opts.SourcePath, opts.BackupDir, opts.Opts)] ∧
      ∃ s, (NewScheduler newBackuper f ch opts).sched = some s ∧
        s.tickerFrequency = f * Minute ∧ s.backuper = b ∧ s.ch = ch ∧
        s.close = Chan.make ∧ s.closeOnce = false) := by
  refine ⟨?_, ?_, ?_⟩
  · unfold NewScheduler
    by_cases hf : f < 1 ∨ f ≥ 1440
    · rw [if_pos hf]
      constructor
      · intro _
        rcases hf with h | h
        · exact Or.inl h
        · exact Or.inr (Or.inl h)
      · intro _
        exact ⟨by simp, rfl⟩
    · rw [if_neg hf]
      cases hnb : newBackuper opts.SourcePath opts.BackupDir opts.Opts with
      | error e =>
        constructor
        · intro _
          exact Or.inr (Or.inr ⟨e, rfl⟩)
        · intro _
          exact ⟨by simp, rfl⟩
      | ok b =>
        constructor
        · intro h
          exact absurd rfl h.1
        · intro h
          rcases h with h | h | ⟨e, he⟩
          · exact absurd (Or.inl h) hf
          · exact absurd (Or.inr h) hf
          · cases he
  · intro hf
    unfold NewScheduler
    rw [if_pos hf]
    exact ⟨rfl, rfl, rfl⟩
  · intro b h1 h2 hnb
    have hf : ¬ (f < 1 ∨ f ≥ 1440) := by omega
    unfold NewScheduler
    rw [if_neg hf, hnb]
    exact ⟨rfl, rfl, _, rfl, tickerFrequency_exact f h1 h2, rfl, rfl, rfl, rfl⟩

/-- C1 at a concrete input: frequency 60 with a `NewBackuper` that succeeds gives a scheduler
ticking every 3600 seconds; frequency 1440 is refused without a call of `NewBackuper`. -/
theorem NewScheduler_contract_witness :
    (NewScheduler (fun _ _ _ => (Except.ok () : Except String Unit)) 1440 ⟨[]⟩
        ⟨"source.db", "backups", []⟩).backuperCalls = [] ∧
    ∃ s, (NewScheduler (fun _ _ _ => (Except.ok () : Except String Unit)) 60 ⟨[]⟩
        ⟨"source.db", "backups", []⟩).sched = some s ∧ s.tickerFrequency = 60 * Minute :=
  ⟨((NewScheduler_contract (fun _ _ _ => (Except.ok () : Except String Unit)) 1440 ⟨[]⟩
      ⟨"source.db", "backups", []⟩).2.1 (Or.inr (by decide))).2.2,
   by
    obtain ⟨_, _, s, hs, hf, _⟩ :=
      (NewScheduler_contract (fun _ _ _ => (Except.ok () : Except String Unit)) 60 ⟨[]⟩
        ⟨"source.db", "backups", []⟩).2.2 () (by decide) (by decide) rfl
    exact ⟨s, hs, hf⟩⟩

/-! ## C2: the first wait -/

/-- C2: for a scheduler whose tick interval is `f` minutes, `1 <= f < 1440`, and every start
instant `now`, the first wait `w` of `Run` is positive and at most the interval, `now + w` is
an exact multiple of the interval counted from the zero time, and `w` is the full interval
exactly when `now` already lies on a boundary. -/
theorem firstWait_next_boundary {β : Type} (s : Scheduler β) (f : Int) (now : Time)
    (h1 : 1 ≤ f) (h2 : f < 1440) (hs : s.tickerFrequency = f * Minute) :
    0 < firstWait now s.tickerFrequency ∧
    firstWait now s.tickerFrequency ≤ s.tickerFrequency ∧
    (now.ns + firstWait now s.tickerFrequency) % s.tickerFrequency = 0 ∧
    (now.Add (firstWait now s.tickerFrequency)).ns % s.tickerFrequency = 0 ∧
    (firstWait now s.tickerFrequency = s.tickerFrequency ↔ now.ns % s.tickerFrequency = 0) := by
  have hd : 0 < s.tickerFrequency := by
    rw [hs]; unfold Minute Second; omega
  have hmax : s.tickerFrequency ≤ maxDuration := by
    rw [hs]; unfold Minute Second maxDuration; omega
  generalize s.tickerFrequency = d at *
  have h3 := Int.emod_nonneg now.ns (show d ≠ 0 by omega)
  have h4 := Int.emod_lt_of_pos now.ns hd
  have h5 := Int.emod_add_ediv now.ns d
  rw [Time.Add_ns, firstWait_eq now d hd hmax]
  have hmul : (now.ns + (d - now.ns % d)) % d = 0 := by
    have e : now.ns + (d - now.ns % d) = 0 + d * (now.ns / d + 1) := by
      linear_combination (-1 : Int) * h5
    rw [e, Int.add_mul_emod_self_left]
    rfl
  refine ⟨by omega, by omega, hmul, hmul, ?_⟩
  constructor <;> intro h <;> omega

/-- C2 at a concrete instant: with a 60 minute interval and `now` one nanosecond past a
boundary, the wait is the interval less that nanosecond. -/
theorem firstWait_next_boundary_witness :
    0 < firstWait ⟨3600000000001⟩ (60 * Minute) ∧
    (3600000000001 + firstWait ⟨3600000000001⟩ (60 * Minute)) % (60 * Minute) = 0 :=
  have h := firstWait_next_boundary
    (⟨(), 60 * Minute, ⟨[]⟩, Chan.make, false⟩ : Scheduler Unit) 60 ⟨3600000000001⟩
    (by decide) (by decide) rfl
  ⟨h.1, h.2.2.1⟩

/-! ## Facts about `Scheduler.backup` and the steps of the system -/

/-- The three ways `s.backup()` can go, by what `Backup` and `Close` return. -/
theorem Scheduler.backup_cases {β : Type} (ops : BackuperOps β) (s : Scheduler β) :
    (∃ err, (ops.Backup s.backuper).1 = .error err ∧
      s.backup ops = ({ s with backuper := (ops.Backup s.backuper).2 },
        [.backupCalled, .log "error" "backup failed"])) ∨
    (∃ r err, (ops.Backup s.backuper).1 = .ok r ∧
      (ops.Close (ops.Backup s.backuper).2).1 = some err ∧
      s.backup ops = ({ s with backuper := (ops.Close (ops.Backup s.backuper).2).2 },
        [.backupCalled, .closeCalled, .log "error" "closing backup"])) ∨
    (∃ r, (ops.Backup s.backuper).1 = .ok r ∧
      (ops.Close (ops.Backup s.backuper).2).1 = none ∧
      s.backup ops = ({ s with backuper := (ops.Close (ops.Backup s.backuper).2).2,
                               ch := ⟨s.ch.delivered ++ [r]⟩ },
        [.backupCalled, .closeCalled, .log "info" "backup succeeded", .resultSent r])) := by
  unfold Scheduler.backup
  rcases hb : ops.Backup s.backuper with ⟨res, b1⟩
  cases res with
  | error err => exact Or.inl ⟨err, rfl, rfl⟩
  | ok r =>
    rcases hc : ops.Close b1 with ⟨cres, b2⟩
    cases cres with
    | some err => exact Or.inr (Or.inl ⟨r, err, rfl, by simp [hc], by simp [hc]⟩)
    | none => exact Or.inr (Or.inr ⟨r, rfl, by simp [hc], by simp [hc]⟩)

/-- A backup leaves the interval, the shutdown channel and the `Once` alone. -/
theorem Scheduler.backup_control {β : Type} (ops : BackuperOps β) (s : Scheduler β) :
    (s.backup ops).1.tickerFrequency = s.tickerFrequency ∧
    (s.backup ops).1.close = s.close ∧ (s.backup ops).1.closeOnce = s.closeOnce := by
  rcases s.backup_cases ops with ⟨_, _, h⟩ | ⟨_, _, _, _, h⟩ | ⟨_, _, _, h⟩ <;>
    rw [h] <;> exact ⟨rfl, rfl, rfl⟩

/-- A backup puts no shutdown event into the trace. -/
theorem Scheduler.backup_events {β : Type} (ops : BackuperOps β) (s : Scheduler β) :
    (s.backup ops).2.count .signalSent = 0 ∧ (s.backup ops).2.count .channelClosed = 0 := by
  rcases s.backup_cases ops with ⟨_, _, h⟩ | ⟨_, _, _, _, h⟩ | ⟨_, _, _, h⟩ <;>
    rw [h] <;> simp [List.count_cons]

/-- The timer case of the `select`, when it can be taken. -/
theorem System.step_tick {β : Type} (ops : BackuperOps β) (sys : System β) (w e : Int)
    (hrun : sys.run = .selecting w) (he : 0 ≤ e) (hready : sys.closeReady = true → w ≤ 0) :
    sys.step ops (.tick e) = some { sys with
      sched := (sys.sched.backup ops).1
      run := .selecting (nextWait sys.sched.tickerFrequency e)
      trace := sys.trace ++ (sys.sched.backup ops).2 ++
        [.waitSet (nextWait sys.sched.tickerFrequency e)] } := by
  unfold System.step
  simp only [hrun]
  rw [if_pos ⟨he, hready⟩]

/-- Within the range of an interval set by `NewScheduler` and of a measured elapsed time the
subtraction does not overflow. -/
theorem nextWait_exact (f e : Int) (h1 : 1 ≤ f) (h2 : f < 1440) (he0 : 0 ≤ e)
    (he1 : e ≤ maxDuration) : nextWait (f * Minute) e = f * Minute - e := by
  unfold maxDuration at he1
  unfold nextWait wrapInt64 Minute Second
  omega

/-! ## C3: the wait after a tick -/

/-- C3: a tick of `Run` whose processing takes the elapsed time `e` sets the wait before the
next tick to exactly `tickerFrequency - e`; for `e > 0` that is strictly less than the
frequency, and for `e >= tickerFrequency` it is `<= 0`, for which the timer fires at once. -/
theorem tick_wait_is_frequency_minus_elapsed {β : Type} (ops : BackuperOps β) (sys : System β)
    (f w e : Int) (h1 : 1 ≤ f) (h2 : f < 1440) (hf : sys.sched.tickerFrequency = f * Minute)
    (hrun : sys.run = .selecting w) (hready : sys.closeReady = true → w ≤ 0)
    (he0 : 0 ≤ e) (he1 : e ≤ maxDuration) :
    ∃ sys1, sys.step ops (.tick e) = some sys1 ∧
      sys1.run = .selecting (sys.sched.tickerFrequency - e) ∧
      sys1.trace = sys.trace ++ (sys.sched.backup ops).2 ++
        [.waitSet (sys.sched.tickerFrequency - e)] ∧
      sys1.sched.tickerFrequency = sys.sched.tickerFrequency ∧
      (0 < e → sys.sched.tickerFrequency - e < sys.sched.tickerFrequency) ∧
      (sys.sched.tickerFrequency ≤ e →
        sys.sched.tickerFrequency - e ≤ 0 ∧ After (sys.sched.tickerFrequency - e) = 0) ∧
      (e < sys.sched.tickerFrequency →
        After (sys.sched.tickerFrequency - e) = sys.sched.tickerFrequency - e) := by
  refine ⟨_, sys.step_tick ops w e hrun he0 hready, ?_, ?_, ?_, ?_, ?_, ?_⟩
  · simp only [hf, nextWait_exact f e h1 h2 he0 he1]
  · simp only [hf, nextWait_exact f e h1 h2 he0 he1]
  · exact (sys.sched.backup_control ops).1
  · intro h; omega
  · intro h
    unfold After
    refine ⟨by omega, ?_⟩
    rw [if_pos (by omega)]
  · intro h
    unfold After
    rw [if_neg (by omega)]

/-- C3 at a concrete tick: a 60 minute interval and a tick that took 61 minutes give a wait
of minus one minute, for which the timer fires at once. -/
theorem tick_wait_is_frequency_minus_elapsed_witness :
    ∃ sys1, (⟨⟨(), 60 * Minute, ⟨[]⟩, Chan.make, false⟩, .selecting 5, .idle, []⟩ :
        System Unit).step ⟨fun b => (.error "no source", b), fun b => (none, b)⟩
        (.tick (61 * Minute)) = some sys1 ∧
      sys1.run = .selecting (60 * Minute - 61 * Minute) ∧
      After (60 * Minute - 61 * Minute) = 0 := by
  obtain ⟨sys1, h, hr, _, _, _, hz, _⟩ := tick_wait_is_frequency_minus_elapsed
    ⟨fun b => (.error "no source", b), fun b => (none, b)⟩
    (⟨⟨(), 60 * Minute, ⟨[]⟩, Chan.make, false⟩, .selecting 5, .idle, []⟩ : System Unit)
    60 5 (61 * Minute) (by decide) (by decide) rfl rfl (by decide) (by decide) (by decide)
  exact ⟨sys1, h, hr, (hz (by decide)).2⟩

/-! ## C4: publishing the result -/

/-- C4 does not hold as stated: on a tick where `Backup` returns a result without error and
the `Close` that follows returns an error, nothing is sent on the result channel, and the
next tick is scheduled all the same. -/
theorem tick_close_error_sends_nothing :
    (closeFailsOps.Backup []).1 = .ok sampleResult ∧
    ∃ sys1, (⟨sampleScheduler [], .selecting 5, .idle, []⟩ : System (List String)).step
        closeFailsOps (.tick 1000) = some sys1 ∧
      sys1.sched.ch.delivered = [] ∧
      sys1.trace = [.backupCalled, .closeCalled, .log "error" "closing backup",
        .waitSet 3599999999000] ∧
      sys1.run = .selecting 3599999999000 :=
  ⟨rfl, _, rfl, rfl, rfl, rfl⟩

/-- C4, amended: on a tick where `Backup` returns a result without error, the scheduler
closes the backuper; when that `Close` returns no error it sends exactly that result, once,
on the result channel, before it sets the wait for the next tick; when `Close` returns an
error it sends nothing. -/
theorem tick_sends_result_when_close_succeeds {β : Type} (ops : BackuperOps β)
    (sys : System β) (w e : Int) (r : BackupResult)
    (hrun : sys.run = .selecting w) (he : 0 ≤ e) (hready : sys.closeReady = true → w ≤ 0)
    (hb : (ops.Backup sys.sched.backuper).1 = .ok r) :
    ∃ sys1, sys.step ops (.tick e) = some sys1 ∧
      ((ops.Close (ops.Backup sys.sched.backuper).2).1 = none →
        sys1.sched.ch.delivered = sys.sched.ch.delivered ++ [r] ∧
        sys1.trace = sys.trace ++ [.backupCalled, .closeCalled,
          .log "info" "backup succeeded", .resultSent r,
          .waitSet (nextWait sys.sched.tickerFrequency e)]) ∧
      (∀ err, (ops.Close (ops.Backup sys.sched.backuper).2).1 = some err →
        sys1.sched.ch.delivered = sys.sched.ch.delivered ∧
        sys1.trace = sys.trace ++ [.backupCalled, .closeCalled,
          .log "error" "closing backup",
          .waitSet (nextWait sys.sched.tickerFrequency e)]) := by
  refine ⟨_, sys.step_tick ops w e hrun he hready, ?_, ?_⟩
  · intro hc
    rcases sys.sched.backup_cases ops with ⟨_, h, _⟩ | ⟨_, _, _, h, _⟩ | ⟨r1, h1, _, h⟩
    · rw [hb] at h; cases h
    · rw [hc] at h; cases h
    · rw [hb] at h1
      cases h1
      simp [h]
  · intro err hc
    rcases sys.sched.backup_cases ops with ⟨_, h, _⟩ | ⟨_, _, _, _, h⟩ | ⟨_, _, h, _⟩
    · rw [hb] at h; cases h
    · simp [h]
    · rw [hc] at h; cases h

/-- C4, amended, at a concrete tick: with a backuper whose `Backup` and `Close` succeed the
result of the backup is what arrives on the result channel. -/
theorem tick_sends_result_when_close_succeeds_witness :
    ∃ sys1, (⟨sampleScheduler [], .selecting 5, .idle, []⟩ : System (List String)).step
        recordingOps (.tick 1000) = some sys1 ∧
      sys1.sched.ch.delivered = [sampleResult] := by
  obtain ⟨sys1, h, hs, _⟩ := tick_sends_result_when_close_succeeds recordingOps
    (⟨sampleScheduler [], .selecting 5, .idle, []⟩ : System (List String)) 5 1000 sampleResult
    rfl (by decide) (by decide) rfl
  exact ⟨sys1, h, (hs rfl).1⟩

/-! ## C5: a failed backup does not stop the loop -/

/-- The loop of `Run` is left only through the shutdown case: a step that takes `Run` from
not returned to returned is a receive on `s.close`, never a tick. -/
theorem System.run_returns_only_on_close {β : Type} (ops : BackuperOps β)
    (st st1 : System β) (a : Action) (h : st.step ops a = some st1)
    (h0 : st.run ≠ .returned) (h1 : st1.run = .returned) :
    (a = .callShutdown ∨ a = .receiveClose) ∧
    (st1.sched.close.delivered = st.sched.close.delivered ++ [()] ∨
      st.sched.close.closed = true) := by
  cases a with
  | startRun now =>
    simp only [System.step] at h
    split at h
    · cases h; cases h1
    · cases h
  | callShutdown =>
    refine ⟨Or.inl rfl, ?_⟩
    simp only [System.step] at h
    split at h
    · split_ifs at h with hc1 hc2
      · cases h; exact absurd h1 h0
      · cases h; exact absurd h1 h0
      · split at h
        · cases h; exact Or.inl rfl
        · cases h; exact absurd h1 h0
    · cases h
  | tick e =>
    simp only [System.step] at h
    split at h
    · split_ifs at h
      cases h; cases h1
    · cases h
  | receiveClose =>
    refine ⟨Or.inr rfl, ?_⟩
    simp only [System.step] at h
    split at h
    · split at h
      · cases h; exact Or.inl rfl
      · split_ifs at h with hc
        cases h; exact Or.inr hc
    · cases h

/-- Ticks, however many and whatever their backups return, leave `Run` in its loop. -/
theorem System.ticks_keep_selecting {β : Type} (ops : BackuperOps β) (es : List Int) :
    ∀ (st st1 : System β) (w : Int), st.run = .selecting w →
      st.exec ops (es.map .tick) = some st1 → ∃ w1, st1.run = .selecting w1 := by
  induction es with
  | nil =>
    intro st st1 w hw h
    simp only [List.map_nil, System.exec] at h
    cases h
    exact ⟨w, hw⟩
  | cons e es ih =>
    intro st st1 w hw h
    simp only [List.map_cons, System.exec] at h
    split at h
    · rename_i st2 hst
      simp only [System.step, hw] at hst
      split_ifs at hst
      cases hst
      exact ih _ st1 _ rfl h
    · cases h

/-- C5: on a tick on which `Backup` returns an error, `Scheduler.backup` sends nothing on the
result channel and returns, and `Run` stays in its loop with the next wait set; and in every
execution `Run` leaves its loop only by a receive on the shutdown channel, never by a tick,
whatever the backups returned. -/
theorem backup_failure_keeps_loop {β : Type} (ops : BackuperOps β) (sys : System β)
    (w e : Int) (err : String)
    (hrun : sys.run = .selecting w) (he : 0 ≤ e) (hready : sys.closeReady = true → w ≤ 0)
    (hb : (ops.Backup sys.sched.backuper).1 = .error err) :
    (sys.sched.backup ops).1.ch = sys.sched.ch ∧
    (sys.sched.backup ops).2 = [.backupCalled, .log "error" "backup failed"] ∧
    (∃ sys1, sys.step ops (.tick e) = some sys1 ∧
      sys1.run = .selecting (nextWait sys.sched.tickerFrequency e) ∧
      sys1.sched.ch = sys.sched.ch ∧
      sys1.trace = sys.trace ++ [.backupCalled, .log "error" "backup failed",
        .waitSet (nextWait sys.sched.tickerFrequency e)]) ∧
    (∀ (st st1 : System β) (a : Action), st.step ops a = some st1 →
      st.run ≠ .returned → st1.run = .returned →
      (a = .callShutdown ∨ a = .receiveClose) ∧
      (st1.sched.close.delivered = st.sched.close.delivered ++ [()] ∨
        st.sched.close.closed = true)) ∧
    (∀ (es : List Int) (st st1 : System β) (w0 : Int), st.run = .selecting w0 →
      st.exec ops (es.map .tick) = some st1 → ∃ w1, st1.run = .selecting w1) := by
  have hcase : sys.sched.backup ops =
      ({ sys.sched with backuper := (ops.Backup sys.sched.backuper).2 },
        [.backupCalled, .log "error" "backup failed"]) := by
    rcases sys.sched.backup_cases ops with ⟨_, _, h⟩ | ⟨_, _, h, _⟩ | ⟨_, h, _⟩
    · exact h
    · rw [hb] at h; cases h
    · rw [hb] at h; cases h
  refine ⟨by rw [hcase], by rw [hcase],
    ⟨_, sys.step_tick ops w e hrun he hready, rfl, ?_, ?_⟩,
    fun st st1 a h h0 h1 => System.run_returns_only_on_close ops st st1 a h h0 h1,
    fun es => System.ticks_keep_selecting ops es⟩
  · simp [hcase]
  · simp [hcase]

/-- C5 at a concrete tick: a backuper whose `Backup` fails, at a 60 minute interval. -/
theorem backup_failure_keeps_loop_witness :
    ∃ sys1, (⟨sampleScheduler [], .selecting 5, .idle, []⟩ : System (List String)).step
        failingOps (.tick 1000) = some sys1 ∧
      sys1.run = .selecting 3599999999000 ∧ sys1.sched.ch.delivered = [] := by
  obtain ⟨_, _, ⟨sys1, h, hr, hc, _⟩, _⟩ := backup_failure_keeps_loop failingOps
    (⟨sampleScheduler [], .selecting 5, .idle, []⟩ : System (List String)) 5 1000 "copy failed"
    rfl (by decide) (by decide) rfl
  exact ⟨sys1, h, hr, by rw [hc]; rfl⟩

/-! ## Reachable states -/

/-- What `NewScheduler` returns when it returns a scheduler. -/
theorem NewScheduler_some {β : Type}
    (newBackuper : String → String → List BackupOption → Except String β)
    (f : Int) (ch : ResultChan) (opts : BackuperOptions) (s : Scheduler β)
    (h : (NewScheduler newBackuper f ch opts).sched = some s) :
    1 ≤ f ∧ f < 1440 ∧ s.tickerFrequency = f * Minute ∧ s.ch = ch ∧
    s.close = Chan.make ∧ s.closeOnce = false := by
  unfold NewScheduler at h
  by_cases hf : f < 1 ∨ f ≥ 1440
  · rw [if_pos hf] at h
    cases h
  · rw [if_neg hf] at h
    have h1 : 1 ≤ f := by omega
    have h2 : f < 1440 := by omega
    split at h
    · cases h
    · simp only [Option.some.injEq] at h
      subst h
      exact ⟨h1, h2, tickerFrequency_exact f h1 h2, rfl, rfl, rfl⟩

/-- The first wait is positive for an interval that `NewScheduler` sets. -/
theorem firstWait_pos (now : Time) (f : Int) (h1 : 1 ≤ f) (h2 : f < 1440) :
    0 < firstWait now (f * Minute) := by
  have hd : 0 < f * Minute := by unfold Minute Second; omega
  have hmax : f * Minute ≤ maxDuration := by unfold Minute Second maxDuration; omega
  have h4 := Int.emod_lt_of_pos now.ns hd
  rw [firstWait_eq now _ hd hmax]
  omega

theorem System.handOver_inv {β : Type} (sys : System β)
    (h : sys.sched.closeOnce = false) (hi : sys.Inv) : sys.handOver.Inv := by
  obtain ⟨hc, _, _, ht1, ht2⟩ := hi.1 h
  refine ⟨fun h0 => by simp [System.handOver] at h0, fun _ => ?_⟩
  refine ⟨?_, rfl, rfl, ?_, ?_⟩
  · simp [System.handOver, hc, Chan.make]
  · simp [System.handOver, List.count_append, ht1, List.count_cons]
  · simp [System.handOver, List.count_append, ht2, List.count_cons]

/-- Every step keeps the invariant. -/
theorem System.step_inv {β : Type} (ops : BackuperOps β) (sys sys1 : System β) (a : Action)
    (hi : sys.Inv) (h : sys.step ops a = some sys1) : sys1.Inv := by
  cases a with
  | startRun now =>
    simp only [System.step] at h
    split at h
    · rename_i hrun
      cases h
      refine ⟨fun h0 => ?_, fun h0 => ?_⟩
      · obtain ⟨hc, _, hs, ht1, ht2⟩ := hi.1 h0
        refine ⟨hc, by simp, hs, ?_, ?_⟩
        · simp [List.count_append, ht1, List.count_cons]
        · simp [List.count_append, ht2, List.count_cons]
      · have := (hi.2 h0).2.1
        rw [hrun] at this
        cases this
    · cases h
  | callShutdown =>
    simp only [System.step] at h
    split at h
    · split_ifs at h with hc1 hc2
      · cases h; exact hi
      · have := (hi.1 (by simpa using hc1)).1
        rw [this] at hc2
        cases hc2
      · split at h
        · cases h
          exact sys.handOver_inv (by simpa using hc1) hi
        · cases h
          refine ⟨fun h0 => ?_, fun h0 => ?_⟩
          · obtain ⟨hc, hr, _, ht1, ht2⟩ := hi.1 h0
            exact ⟨hc, hr, by simp, ht1, ht2⟩
          · exact absurd h0 hc1
    · cases h
  | tick e =>
    simp only [System.step] at h
    split at h
    · rename_i w hrun
      split_ifs at h
      cases h
      have hb := sys.sched.backup_control ops
      have he := sys.sched.backup_events ops
      refine ⟨fun h0 => ?_, fun h0 => ?_⟩
      · simp only [hb.2.2] at h0
        obtain ⟨hc, _, hs, ht1, ht2⟩ := hi.1 h0
        refine ⟨by simp only [hb.2.1]; exact hc, by simp, hs, ?_, ?_⟩
        · simp [List.count_append, ht1, he.1, List.count_cons]
        · simp [List.count_append, ht2, he.2, List.count_cons]
      · simp only [hb.2.2] at h0
        have := (hi.2 h0).2.1
        rw [hrun] at this
        cases this
    · cases h
  | receiveClose =>
    simp only [System.step] at h
    split at h
    · rename_i w hrun
      have hco : sys.sched.closeOnce = false := by
        cases hco : sys.sched.closeOnce with
        | false => rfl
        | true =>
          have := (hi.2 hco).2.1
          rw [hrun] at this
          cases this
      split at h
      · cases h
        exact sys.handOver_inv hco hi
      · split_ifs at h with hc
        have := (hi.1 hco).1
        rw [this] at hc
        cases hc
    · cases h

/-- The invariant holds of every reachable state. -/
theorem Reachable.inv {β : Type} (ops : BackuperOps β) (sys : System β)
    (hr : Reachable ops sys) : sys.Inv := by
  induction hr with
  | init newBackuper f ch opts s h =>
    obtain ⟨_, _, _, _, hc, ho⟩ := NewScheduler_some newBackuper f ch opts s h
    refine ⟨fun _ => ⟨hc, by simp [System.init], by simp [System.init], rfl, rfl⟩,
      fun h0 => ?_⟩
    simp [System.init, ho] at h0
  | step sys sys1 a _ h ih => exact System.step_inv ops sys sys1 a ih h

/-! ## C6: `Shutdown` before `Run` -/

/-- C6 does not hold as stated: on a scheduler fresh from `NewScheduler` whose `Run` was never
started, a call of `Shutdown` blocks in its send on the shutdown channel, with nothing sent
and nothing closed, and nothing but a start of `Run` can happen after it: the call does not
return without a loop that receives. -/
theorem Shutdown_without_Run_blocks :
    (NewScheduler (fun _ _ _ => (Except.ok [] : Except String (List String))) 60 ⟨[]⟩
      ⟨"source.db", "backups", []⟩).sched = some (sampleScheduler []) ∧
    ∃ sys1, (System.init (sampleScheduler [])).step recordingOps .callShutdown = some sys1 ∧
      sys1.shutdown = .sending ∧ sys1.run = .notStarted ∧
      sys1.sched.close = Chan.make ∧ sys1.sched.closeOnce = false ∧
      ∀ a, (∀ now, a ≠ .startRun now) → sys1.step recordingOps a = none := by
  refine ⟨rfl, _, rfl, rfl, rfl, rfl, rfl, ?_⟩
  intro a ha
  cases a with
  | startRun now => exact absurd rfl (ha now)
  | callShutdown => rfl
  | tick e => rfl
  | receiveClose => rfl

/-- C6, amended: on a scheduler fresh from `NewScheduler` whose `Run` was never started, a
call of `Shutdown` blocks in its send on the unbuffered shutdown channel, and only a start of
`Run` can happen next; a `Run` started afterwards has a positive first wait and can take only
the shutdown case of its first `select`, so it returns without a tick, and with that the
blocked `Shutdown` closes the channel and returns. -/
theorem Shutdown_before_Run_returns_once_Run_receives {β : Type} (ops : BackuperOps β)
    (newBackuper : String → String → List BackupOption → Except String β)
    (f : Int) (ch : ResultChan) (opts : BackuperOptions) (s : Scheduler β)
    (h : (NewScheduler newBackuper f ch opts).sched = some s) :
    ∃ sys1, (System.init s).step ops .callShutdown = some sys1 ∧
      sys1.shutdown = .sending ∧ sys1.sched = s ∧ sys1.trace = [] ∧
      (∀ a, (∀ now, a ≠ .startRun now) → sys1.step ops a = none) ∧
      ∀ now, ∃ sys2, sys1.step ops (.startRun now) = some sys2 ∧
        sys2.run = .selecting (firstWait now s.tickerFrequency) ∧
        0 < firstWait now s.tickerFrequency ∧
        (∀ a, a ≠ .receiveClose → sys2.step ops a = none) ∧
        ∃ sys3, sys2.step ops .receiveClose = some sys3 ∧
          sys3.run = .returned ∧ sys3.shutdown = .idle ∧
          sys3.sched.close = ⟨[()], true⟩ ∧ sys3.sched.closeOnce = true ∧
          sys3.sched.backuper = s.backuper ∧ sys3.sched.ch = s.ch ∧
          sys3.trace = [.log "info" "starting backup scheduler", .signalSent,
            .log "info" "closing backup scheduler", .channelClosed] := by
  obtain ⟨h1, h2, hf, _, hc, ho⟩ := NewScheduler_some newBackuper f ch opts s h
  have hclosed : s.close.closed = false := by rw [hc]; rfl
  have hdel : s.close.delivered = [] := by rw [hc]; rfl
  refine ⟨⟨s, .notStarted, .sending, []⟩, ?_, rfl, rfl, rfl, ?_, ?_⟩
  · simp [System.step, System.init, ho, hclosed]
  · intro a ha
    cases a with
    | startRun now => exact absurd rfl (ha now)
    | callShutdown => rfl
    | tick e => rfl
    | receiveClose => rfl
  · intro now
    have hpos : 0 < firstWait now s.tickerFrequency := by
      rw [hf]; exact firstWait_pos now f h1 h2
    refine ⟨⟨s, .selecting (firstWait now s.tickerFrequency), .sending,
      [.log "info" "starting backup scheduler"]⟩, rfl, rfl, hpos, ?_, ?_⟩
    · intro a ha
      cases a with
      | startRun now1 => rfl
      | callShutdown => rfl
      | tick e =>
        simp only [System.step]
        rw [if_neg]
        intro hh
        have := hh.2 (by simp [System.closeReady])
        omega
      | receiveClose => exact absurd rfl ha
    · refine ⟨_, rfl, rfl, rfl, ?_, rfl, rfl, rfl, rfl⟩
      simp [System.handOver, hdel]

/-- C6, amended, at a concrete scheduler: `NewScheduler` with a frequency of 60 minutes. -/
theorem Shutdown_before_Run_returns_once_Run_receives_witness :
    ∃ sys1, (System.init (sampleScheduler ([] : List String))).step recordingOps
        .callShutdown = some sys1 ∧ sys1.shutdown = .sending := by
  obtain ⟨sys1, h, hs, _⟩ := Shutdown_before_Run_returns_once_Run_receives recordingOps
    (fun _ _ _ => (Except.ok [] : Except String (List String))) 60 ⟨[]⟩
    ⟨"source.db", "backups", []⟩ (sampleScheduler []) rfl
  exact ⟨sys1, h, hs⟩

/-! ## C7: `Shutdown` is idempotent -/

/-- Once the `Once` is done and no call is in progress, calls of `Shutdown` change nothing. -/
theorem System.exec_shutdown_done {β : Type} (ops : BackuperOps β) (sys : System β)
    (ho : sys.sched.closeOnce = true) (hs : sys.shutdown = .idle) (k : Nat) :
    sys.exec ops (List.replicate k .callShutdown) = some sys := by
  induction k with
  | zero => rfl
  | succ k ih =>
    have hstep : sys.step ops .callShutdown = some sys := by
      simp [System.step, hs, ho]
    simp only [List.replicate_succ, System.exec, hstep]
    exact ih

/-- C7: for a scheduler whose `Run` loop is waiting in its `select` and every `n >= 1`, `n`
successive calls of `Shutdown` leave the system in the state one call leaves it in: one
value was sent on the shutdown channel and the channel was closed once, both by the first
call; every later call sends nothing, closes nothing and does not panic. -/
theorem Shutdown_idempotent {β : Type} (ops : BackuperOps β) (sys : System β) (w : Int)
    (n : Nat) (hr : Reachable ops sys) (hrun : sys.run = .selecting w)
    (hidle : sys.shutdown = .idle) (hn : 1 ≤ n) :
    sys.exec ops (List.replicate n .callShutdown) = sys.exec ops [.callShutdown] ∧
    ∃ sys1, sys.exec ops [.callShutdown] = some sys1 ∧
      sys1.sched.close = ⟨[()], true⟩ ∧ sys1.sched.closeOnce = true ∧
      sys1.shutdown = .idle ∧ sys1.run = .returned ∧
      sys.trace.count .signalSent = 0 ∧ sys.trace.count .channelClosed = 0 ∧
      sys1.trace = sys.trace ++
        [.signalSent, .log "info" "closing backup scheduler", .channelClosed] ∧
      sys1.trace.count .signalSent = 1 ∧ sys1.trace.count .channelClosed = 1 ∧
      ∀ k, sys1.exec ops (List.replicate k .callShutdown) = some sys1 := by
  have hi := Reachable.inv ops sys hr
  have ho : sys.sched.closeOnce = false := by
    cases hco : sys.sched.closeOnce with
    | false => rfl
    | true =>
      have := (hi.2 hco).2.1
      rw [hrun] at this
      cases this
  obtain ⟨hc, _, _, ht1, ht2⟩ := hi.1 ho
  have hclosed : sys.sched.close.closed = false := by rw [hc]; rfl
  have hdel : sys.sched.close.delivered = [] := by rw [hc]; rfl
  have hstep : sys.step ops .callShutdown = some sys.handOver := by
    simp [System.step, hidle, ho, hclosed, hrun]
  have hi1 := System.handOver_inv sys ho hi
  have hdone : ∀ k, sys.handOver.exec ops (List.replicate k .callShutdown) =
      some sys.handOver := System.exec_shutdown_done ops _ rfl rfl
  have hone : sys.exec ops [.callShutdown] = some sys.handOver := by
    simp only [System.exec, hstep]
  refine ⟨?_, sys.handOver, hone, ?_, rfl, rfl, rfl, ht1, ht2, rfl,
    (hi1.2 rfl).2.2.2.1, (hi1.2 rfl).2.2.2.2, hdone⟩
  · obtain ⟨m, rfl⟩ : ∃ m, n = m + 1 := ⟨n - 1, by omega⟩
    rw [hone]
    simp only [List.replicate_succ, System.exec, hstep]
    exact hdone m
  · simp [System.handOver, hdel]

/-- C7 at a concrete state: a scheduler fresh from `NewScheduler` whose `Run` was started
at 20:34:58 and waits for 21:00:00; three calls of `Shutdown` do what one call does. -/
theorem Shutdown_idempotent_witness :
    (⟨sampleScheduler [], .selecting 1501348612763, .idle,
        [.log "info" "starting backup scheduler"]⟩ : System (List String)).exec recordingOps
      (List.replicate 3 .callShutdown) =
    (⟨sampleScheduler [], .selecting 1501348612763, .idle,
        [.log "info" "starting backup scheduler"]⟩ : System (List String)).exec recordingOps
      [.callShutdown] :=
  (Shutdown_idempotent recordingOps
    (⟨sampleScheduler [], .selecting 1501348612763, .idle,
        [.log "info" "starting backup scheduler"]⟩ : System (List String)) 1501348612763 3
    (Reachable.step (System.init (sampleScheduler [])) _ (.startRun ⟨63394086898651387237⟩)
      (Reachable.init (fun _ _ _ => (Except.ok [] : Except String (List String))) 60 ⟨[]⟩
        ⟨"source.db", "backups", []⟩ (sampleScheduler []) rfl) rfl)
    rfl rfl (by decide)).1

/-! ## C8: the scheduler and the lifetime of its backuper -/

/-- C8 does not hold as stated: with a backuper whose `Backup` and `Close` succeed, two ticks
call `Backup`, `Close`, `Backup`, `Close` on the scheduler's one backuper: `Close` is called
twice, and the second tick calls `Backup` after `Close` was called. -/
theorem two_ticks_close_twice :
    ∃ sys, (System.init (sampleScheduler [])).exec recordingOps
        [.startRun ⟨63394086898651387237⟩, .tick 1000, .tick 1000] = some sys ∧
      sys.sched.backuper = ["Backup", "Close", "Backup", "Close"] ∧
      sys.trace.count .closeCalled = 2 ∧
      sys.trace = [.log "info" "starting backup scheduler",
        .backupCalled, .closeCalled, .log "info" "backup succeeded",
        .resultSent sampleResult, .waitSet 3599999999000,
        .backupCalled, .closeCalled, .log "info" "backup succeeded",
        .resultSent sampleResult, .waitSet 3599999999000] :=
  ⟨_, rfl, rfl, by decide, rfl⟩

/-- C8, amended: the scheduler keeps the one backuper it was built with and never replaces
it. A tick calls `Backup` on it once and, exactly when that `Backup` returned without error,
calls `Close` on it once right after; no other step calls either. So `Close` is called once
for every successful backup, and the next tick calls `Backup` on the same backuper again. -/
theorem tick_closes_backuper_after_each_success {β : Type} (ops : BackuperOps β)
    (sys sys1 : System β) (a : Action) (h : sys.step ops a = some sys1) :
    ((∀ e, a ≠ .tick e) →
      sys1.sched.backuper = sys.sched.backuper ∧
      ∃ evs, sys1.trace = sys.trace ++ evs ∧
        evs.count .backupCalled = 0 ∧ evs.count .closeCalled = 0) ∧
    (∀ e, a = .tick e →
      ((∃ err, (ops.Backup sys.sched.backuper).1 = .error err) →
        sys1.sched.backuper = (ops.Backup sys.sched.backuper).2 ∧
        sys1.trace = sys.trace ++ [.backupCalled, .log "error" "backup failed",
          .waitSet (nextWait sys.sched.tickerFrequency e)]) ∧
      (∀ r, (ops.Backup sys.sched.backuper).1 = .ok r →
        sys1.sched.backuper = (ops.Close (ops.Backup sys.sched.backuper).2).2 ∧
        ∃ evs, sys1.trace = sys.trace ++ [.backupCalled, .closeCalled] ++ evs ∧
          evs.count .backupCalled = 0 ∧ evs.count .closeCalled = 0)) := by
  cases a with
  | startRun now =>
    refine ⟨fun _ => ?_, fun e he => by cases he⟩
    simp only [System.step] at h
    split at h
    · cases h
      exact ⟨rfl, _, rfl, by simp [List.count_cons], by simp [List.count_cons]⟩
    · cases h
  | callShutdown =>
    refine ⟨fun _ => ?_, fun e he => by cases he⟩
    simp only [System.step] at h
    split at h
    · split_ifs at h
      · cases h; exact ⟨rfl, [], by simp, rfl, rfl⟩
      · cases h; exact ⟨rfl, [], by simp, rfl, rfl⟩
      · split at h
        · cases h
          exact ⟨rfl, _, rfl, by simp [List.count_cons], by simp [List.count_cons]⟩
        · cases h; exact ⟨rfl, [], by simp, rfl, rfl⟩
    · cases h
  | receiveClose =>
    refine ⟨fun _ => ?_, fun e he => by cases he⟩
    simp only [System.step] at h
    split at h
    · split at h
      · cases h
        exact ⟨rfl, _, rfl, by simp [List.count_cons], by simp [List.count_cons]⟩
      · split_ifs at h
        cases h
        exact ⟨rfl, _, rfl, by simp [List.count_cons], by simp [List.count_cons]⟩
    · cases h
  | tick e0 =>
    refine ⟨fun hne => absurd rfl (hne e0), fun e he => ?_⟩
    cases he
    simp only [System.step] at h
    split at h
    · split_ifs at h
      cases h
      refine ⟨?_, ?_⟩
      · rintro ⟨err, herr⟩
        rcases sys.sched.backup_cases ops with ⟨_, _, hc⟩ | ⟨_, _, hb, _⟩ | ⟨_, hb, _⟩
        · simp [hc]
        · rw [herr] at hb; cases hb
        · rw [herr] at hb; cases hb
      · intro r hr
        rcases sys.sched.backup_cases ops with
          ⟨_, hb, _⟩ | ⟨_, _, _, _, hc⟩ | ⟨_, _, _, hc⟩
        · rw [hr] at hb; cases hb
        · refine ⟨by simp [hc], _, by simp only [hc, List.append_assoc]; rfl, ?_, ?_⟩ <;>
            simp [List.count_cons]
        · refine ⟨by simp [hc], _, by simp only [hc, List.append_assoc]; rfl, ?_, ?_⟩ <;>
            simp [List.count_cons]
    · cases h

/-- C8, amended, at a concrete tick: with a backuper whose `Backup` and `Close` succeed, the
backuper after the tick has had `Backup` and then `Close` called on it. -/
theorem tick_closes_backuper_after_each_success_witness :
    ∃ sys1, (⟨sampleScheduler [], .selecting 5, .idle, []⟩ : System (List String)).step
        recordingOps (.tick 1000) = some sys1 ∧
      sys1.sched.backuper = ["Backup", "Close"] :=
  ⟨_, rfl,
    (((tick_closes_backuper_after_each_success recordingOps
      (⟨sampleScheduler [], .selecting 5, .idle, []⟩ : System (List String)) _
      (.tick 1000) rfl).2 1000 rfl).2 sampleResult rfl).1⟩

/-! ## Facts about pruning -/

theorem Stamp.le_total (a b : Stamp) : Stamp.le a b ∨ Stamp.le b a :=
  Int.le_total _ _

theorem Stamp.le_trans (a b c : Stamp) (h1 : Stamp.le a b) (h2 : Stamp.le b c) :
    Stamp.le a c := by
  unfold Stamp.le at h1 h2 ⊢
  have ha : (0 : Int) < ((10 ^ a.digits : Nat) : Int) := by positivity
  have hb : (0 : Int) < ((10 ^ b.digits : Nat) : Int) := by positivity
  have hc : (0 : Int) < ((10 ^ c.digits : Nat) : Int) := by positivity
  generalize ((10 ^ a.digits : Nat) : Int) = pa at *
  generalize ((10 ^ b.digits : Nat) : Int) = pb at *
  generalize ((10 ^ c.digits : Nat) : Int) = pc at *
  by_contra hlt
  push_neg at hlt
  have e1 := mul_le_mul_of_nonneg_right h1 hc.le
  have e2 := mul_le_mul_of_nonneg_right h2 ha.le
  have e3 := mul_lt_mul_of_pos_right hlt hb
  nlinarith

theorem eligible_map_fst (dir : String) (files : List String) :
    (eligible dir files).map Prod.fst =
      files.filter (fun p => (embeddedTimestamp dir p).isSome) := by
  induction files with
  | nil => rfl
  | cons p ps ih =>
    unfold eligible at ih ⊢
    cases h : embeddedTimestamp dir p with
    | none => simp [List.filterMap_cons, List.filter_cons, h, ih]
    | some t => simp [List.filterMap_cons, List.filter_cons, h, ih]

theorem mem_eligible (dir : String) (files : List String) (x : String × Stamp) :
    x ∈ eligible dir files ↔ x.1 ∈ files ∧ embeddedTimestamp dir x.1 = some x.2 := by
  unfold eligible
  rw [List.mem_filterMap]
  constructor
  · rintro ⟨p, hp, h⟩
    cases ht : embeddedTimestamp dir p with
    | none => rw [ht] at h; cases h
    | some t =>
      rw [ht] at h
      simp only [Option.map_some', Option.some.injEq] at h
      subst h
      exact ⟨hp, ht⟩
  · rintro ⟨hp, h⟩
    exact ⟨x.1, hp, by rw [h]; rfl⟩

theorem eligible_filter (dir : String) (q : String → Bool) (files : List String) :
    eligible dir (files.filter q) = (eligible dir files).filter (fun x => q x.1) := by
  induction files with
  | nil => rfl
  | cons p ps ih =>
    unfold eligible at ih ⊢
    by_cases hq : q p = true
    · cases h : embeddedTimestamp dir p with
      | none => simp [List.filterMap_cons, List.filter_cons, h, hq, ih]
      | some t => simp [List.filterMap_cons, List.filter_cons, h, hq, ih]
    · cases h : embeddedTimestamp dir p with
      | none => simp [List.filterMap_cons, List.filter_cons, h, hq, ih]
      | some t => simp [List.filterMap_cons, List.filter_cons, h, hq, ih]

theorem eligible_fst_nodup (dir : String) (files : List String) (h : files.Nodup) :
    ((eligible dir files).map Prod.fst).Nodup := by
  rw [eligible_map_fst]
  exact h.filter _

/-- Of a list with distinct first components, the entries whose first component does not
occur after position `n` are the first `n` entries. -/
theorem filter_not_in_drop (n : Nat) :
    ∀ (l : List (String × Stamp)), (l.map Prod.fst).Nodup →
      l.filter (fun x => !(decide (x.1 ∈ (l.drop n).map Prod.fst))) = l.take n := by
  induction n with
  | zero =>
    intro l _
    rw [List.drop_zero, List.take_zero, List.filter_eq_nil_iff]
    intro x hx
    simp only [Bool.not_eq_true', Bool.not_eq_false, decide_eq_true_eq, Bool.not_eq_true]
    simpa using List.mem_map_of_mem Prod.fst hx
  | succ n ih =>
    intro l hl
    cases l with
    | nil => rfl
    | cons a t =>
      rw [List.map_cons, List.nodup_cons] at hl
      have ha : a.1 ∉ (t.drop n).map Prod.fst := fun hmem =>
        hl.1 ((List.map_subset _ (List.drop_subset n t)) hmem)
      simp only [List.drop_succ_cons, List.take_succ_cons]
      rw [List.filter_cons_of_pos (by simpa using ha), ih t hl.2]

theorem newestFirst_perm (l : List (String × Stamp)) : List.Perm (newestFirst l) l :=
  List.perm_insertionSort _ l

theorem newestFirst_sorted (l : List (String × Stamp)) :
    List.Sorted (fun a b : String × Stamp => Stamp.le b.2 a.2) (newestFirst l) := by
  haveI : IsTotal (String × Stamp) (fun a b => Stamp.le b.2 a.2) :=
    ⟨fun a b => Stamp.le_total b.2 a.2⟩
  haveI : IsTrans (String × Stamp) (fun a b => Stamp.le b.2 a.2) :=
    ⟨fun a b c h1 h2 => Stamp.le_trans c.2 b.2 a.2 h2 h1⟩
  exact List.sorted_insertionSort _ l

/-- A file that pruning sets out to delete is one it considers. -/
theorem doomed_timestamp (k : Int) (dir : String) (files : List String) (p : String)
    (hd : p ∈ doomed k dir files) : p ∈ files ∧ ∃ t, embeddedTimestamp dir p = some t := by
  unfold doomed at hd
  obtain ⟨x, hx, rfl⟩ := List.mem_map.1 hd
  have hx1 := (newestFirst_perm _).subset (List.drop_subset _ _ hx)
  rw [mem_eligible] at hx1
  exact ⟨hx1.1, x.2, hx1.2⟩

/-- When every deletion that pruning sets out to do succeeds, pruning keeps exactly the files
that it did not set out to delete. -/
theorem prune_eq_filter (k : Int) (rf : String → Bool) (dir : String) (files : List String)
    (hrf : ∀ p ∈ doomed k dir files, rf p = false) :
    prune k rf dir files = files.filter (fun p => !(decide (p ∈ doomed k dir files))) := by
  unfold prune
  apply List.filter_congr
  intro p _
  by_cases hd : p ∈ doomed k dir files
  · simp [hd, hrf p hd]
  · simp [hd]

/-- When every deletion that pruning sets out to do succeeds, the files that pruning leaves
and that it considers are, up to their order, the first `keepFiles` of the newest-first
list. -/
theorem prune_eligible (k : Int) (rf : String → Bool) (dir : String) (files : List String)
    (hnd : files.Nodup) (hrf : ∀ p ∈ doomed k dir files, rf p = false) :
    List.Perm (eligible dir (prune k rf dir files))
      ((newestFirst (eligible dir files)).take k.toNat) := by
  have hS := newestFirst_perm (eligible dir files)
  have hSnd : ((newestFirst (eligible dir files)).map Prod.fst).Nodup :=
    ((hS.map Prod.fst).nodup_iff).2 (eligible_fst_nodup dir files hnd)
  rw [prune_eq_filter k rf dir files hrf]
  unfold doomed
  rw [eligible_filter]
  rw [← filter_not_in_drop k.toNat _ hSnd]
  exact (hS.filter _).symm

/-- Pruning deletes no file but one it considers, and makes none. -/
theorem prune_others (k : Int) (rf : String → Bool) (dir : String) (files : List String) :
    (∀ p ∈ files, embeddedTimestamp dir p = none → p ∈ prune k rf dir files) ∧
    (∀ p ∈ prune k rf dir files, p ∈ files) := by
  constructor
  · intro p hp hnone
    unfold prune
    rw [List.mem_filter]
    refine ⟨hp, ?_⟩
    have : p ∉ doomed k dir files := by
      intro hd
      obtain ⟨_, t, ht⟩ := doomed_timestamp k dir files p hd
      rw [ht] at hnone
      cases hnone
    simp [this]
  · intro p hp
    unfold prune at hp
    exact (List.mem_filter.1 hp).1

/-- Pruning leaves the files that match the pattern without a parsable timestamp as they
were. -/
theorem prune_unparsable (k : Int) (rf : String → Bool) (dir : String) (files : List String) :
    unparsable dir (prune k rf dir files) = unparsable dir files := by
  unfold unparsable prune
  rw [List.filter_filter]
  apply List.filter_congr
  intro p _
  cases hts : embeddedTimestamp dir p with
  | some t => simp
  | none =>
    have : p ∉ doomed k dir files := by
      intro hd
      obtain ⟨_, t, ht⟩ := doomed_timestamp k dir files p hd
      rw [ht] at hts
      cases hts
    simp [this]

theorem matchesPattern_of_timestamp (dir p : String)
    (h : (embeddedTimestamp dir p).isSome = true) : matchesPattern dir p = true := by
  unfold embeddedTimestamp at h
  unfold matchesPattern
  cases hn : nameIn dir p with
  | none => rw [hn] at h; cases h
  | some name =>
    rw [hn] at h
    simp only [] at h ⊢
    cases hs : backupStem name with
    | none => rw [hs] at h; cases h
    | some stem => rfl

/-- The files that match the naming pattern are those that pruning considers and those whose
timestamp cannot be parsed. -/
theorem backupFileCount_split (dir : String) (files : List String) :
    backupFileCount dir files = (eligible dir files).length + (unparsable dir files).length := by
  induction files with
  | nil => rfl
  | cons p ps ih =>
    unfold backupFileCount eligible unparsable at ih ⊢
    cases hts : embeddedTimestamp dir p with
    | none =>
      cases hm : matchesPattern dir p with
      | false => simp [List.filter_cons, List.filterMap_cons, hts, hm]; omega
      | true => simp [List.filter_cons, List.filterMap_cons, hts, hm]; omega
    | some t =>
      have hm := matchesPattern_of_timestamp dir p (by rw [hts]; rfl)
      simp [List.filter_cons, List.filterMap_cons, hts, hm]
      omega

theorem World.write_nodup (w : World) (path : String) (size : Int) (h : w.files.Nodup) :
    (w.write path size).files.Nodup := by
  unfold World.write
  simp only []
  split_ifs with hmem
  · exact h
  · exact List.Nodup.append h (List.nodup_singleton _) (by simpa using hmem)

theorem World.remove_nodup (w : World) (path : String) (h : w.files.Nodup) :
    (w.remove path).files.Nodup := h.filter _

theorem vacuumStage_nodup (enabled : Bool) (env : Env) (path : String) (w : World)
    (v : Staged) (hv : vacuumStage enabled env path w = .ok v) (h : w.files.Nodup) :
    v.world.files.Nodup := by
  unfold vacuumStage at hv
  split_ifs at hv
  · split at hv
    · cases hv
    · cases hv
      exact w.write_nodup _ _ h
  · cases hv
    exact h

theorem compressStage_nodup (enabled : Bool) (env : Env) (path : String) (w : World)
    (c : Staged) (hc : compressStage enabled env path w = .ok c) (h : w.files.Nodup) :
    c.world.files.Nodup := by
  unfold compressStage at hc
  split_ifs at hc
  · split at hc
    · cases hc
    · cases hc
      exact World.remove_nodup _ _ (w.write_nodup _ _ h)
  · cases hc
    exact h

/-- What a successful `produce` did: the file creator returned the path of the copy, and the
vacuum stage and the compression stage went through, one after the other. -/
theorem Backuper.produce_ok (b : Backuper) (env : Env) (w mid : World) (r : BackupResult)
    (h : b.produce env w = (.ok r, mid)) :
    ∃ path vac comp, b.fileCreator b.dir env.timestamp = .ok path ∧
      vacuumStage b.config.Vacuum env path (w.write path env.copiedSize) = .ok vac ∧
      compressStage b.config.Compression env path vac.world = .ok comp ∧
      mid = comp.world ∧
      r = { Path := comp.path
            Timestamp := env.timestamp
            Size := (w.write path env.copiedSize).size path
            SizeAfterVacuum := vac.size
            SizeAfterCompression := comp.size
            ElapsedTime := env.elapsed
            VacuumElapsedTime := vac.elapsed
            CompressionElapsedTime := comp.elapsed } := by
  unfold Backuper.produce at h
  by_cases hc : b.closed = true
  · rw [if_pos hc] at h
    cases h
  · rw [if_neg hc] at h
    cases hf : b.fileCreator b.dir env.timestamp with
    | error e => rw [hf] at h; cases h
    | ok path =>
      rw [hf] at h
      simp only [] at h
      cases hv : vacuumStage b.config.Vacuum env path (w.write path env.copiedSize) with
      | error e => rw [hv] at h; cases h
      | ok vac =>
        rw [hv] at h
        simp only [] at h
        cases hcm : compressStage b.config.Compression env path vac.world with
        | error e => rw [hcm] at h; cases h
        | ok comp =>
          rw [hcm] at h
          simp only [] at h
          exact ⟨path, vac, comp, rfl, hv, hcm, (Prod.mk.inj h).2.symm,
            (Except.ok.inj (Prod.mk.inj h).1).symm⟩

theorem Backuper.produce_nodup (b : Backuper) (env : Env) (w mid : World) (r : BackupResult)
    (h : b.produce env w = (.ok r, mid)) (hnd : w.files.Nodup) : mid.files.Nodup := by
  obtain ⟨path, vac, comp, _, hv, hc, rfl, _⟩ := b.produce_ok env w mid r h
  exact compressStage_nodup _ _ _ _ _ hc
    (vacuumStage_nodup _ _ _ _ _ hv (w.write_nodup _ _ hnd))

/-- A successful `Backup` is a successful `produce` followed, with pruning enabled, by the
prune stage. -/
theorem Backuper.Backup_ok (b : Backuper) (env : Env) (w w1 : World) (r : BackupResult)
    (hok : b.Backup env w = (.ok r, w1)) :
    ∃ mid, b.produce env w = (.ok r, mid) ∧
      w1 = if b.config.Pruning then
        { mid with files := prune b.config.KeepFiles env.removeFails b.dir mid.files }
        else mid := by
  unfold Backuper.Backup at hok
  rcases hprod : b.produce env w with ⟨res, mid⟩
  rw [hprod] at hok
  cases res with
  | error e => cases hok
  | ok r0 =>
    simp only [] at hok
    by_cases hp : b.config.Pruning = true
    · rw [if_pos hp] at hok
      refine ⟨mid, ?_, ?_⟩
      · rw [(Prod.mk.inj hok).1]
      · rw [if_pos hp, ← (Prod.mk.inj hok).2]
    · rw [if_neg hp] at hok
      refine ⟨mid, ?_, ?_⟩
      · rw [(Prod.mk.inj hok).1]
      · rw [if_neg hp, ← (Prod.mk.inj hok).2]

/-- The options of the repository's pruning test give the configuration the test reads. -/
theorem NewBackuper_options (sourceOpens : String → Bool)
    (create : String → Time → Except String String) (hopen : sourceOpens "source.db" = true) :
    ∃ b, NewBackuper sourceOpens create "source.db" "backups"
        [WithVacuum true, WithPruning true 1, WithCompression true] = .ok b ∧
      b.config = ⟨true, true, true, 1⟩ := by
  unfold NewBackuper
  rw [if_pos hopen]
  exact ⟨_, rfl, rfl⟩

/-- After `Close` a `Backup` fails with `Closed` and touches no file. -/
theorem Backuper.Backup_after_Close (b : Backuper) (env : Env) (w : World) :
    b.Close.Backup env w = (.error .Closed, w) := rfl

/-! ## C9: pruning -/

/-- C9 does not hold as stated, in two cases that the spec provides for. With pruning enabled
and `KeepFiles = 1`, a successful `Backup` leaves two files that match the backup naming
pattern when the deletion of the older one fails (which is logged, not fatal), and also when
the older file matches the naming pattern but has no parsable timestamp (which makes it
prune-ineligible). -/
theorem Backup_prune_leaves_more_than_keep :
    (∃ r w1,
      (sampleBackuper ⟨true, false, true, 1⟩ "tbl_backup_2009-11-17T20:35:58Z.db").Backup
        (sampleEnv true) (sampleWorld ["backups/tbl_backup_2009-11-17T20:34:58Z.db.zst"]) =
          (.ok r, w1) ∧
      w1.files = ["backups/tbl_backup_2009-11-17T20:34:58Z.db.zst",
        "backups/tbl_backup_2009-11-17T20:35:58Z.db"] ∧
      backupFileCount "backups" w1.files = 2) ∧
    (∃ r w1,
      (sampleBackuper ⟨true, false, true, 1⟩ "tbl_backup_2009-11-17T20:35:58Z.db").Backup
        (sampleEnv false) (sampleWorld ["backups/tbl_backup_latest.db"]) = (.ok r, w1) ∧
      w1.files = ["backups/tbl_backup_latest.db",
        "backups/tbl_backup_2009-11-17T20:35:58Z.db"] ∧
      backupFileCount "backups" w1.files = 2) :=
  ⟨⟨_, _, rfl, rfl, by decide⟩, ⟨_, _, rfl, rfl, by decide⟩⟩

/-- C9, amended: after a successful `Backup` with pruning enabled and `KeepFiles = N` in which
no deletion that pruning set out to do failed, the backup directory holds at most `N` (none
for `N <= 0`) backup files with a parsable timestamp; the files that match the naming pattern
are these and the matching files without a parsable timestamp, which are all left in place;
when more than `N` files with a parsable timestamp existed before the prune stage, exactly
`N` (none for `N <= 0`) survive; the survivors existed before, and each is at least as recent
by its embedded timestamp as every file that was deleted; files that pruning does not
consider are left as they were, and no file appears. -/
theorem Backup_prune_keeps_most_recent (b : Backuper) (env : Env) (w w1 : World)
    (r : BackupResult) (hp : b.config.Pruning = true)
    (hok : b.Backup env w = (.ok r, w1)) (hnd : w.files.Nodup)
    (hrm : ∀ p ∈ doomed b.config.KeepFiles b.dir (b.produce env w).2.files,
      env.removeFails p = false) :
    ∃ mid, b.produce env w = (.ok r, mid) ∧
      (eligible b.dir w1.files).length ≤ b.config.KeepFiles.toNat ∧
      backupFileCount b.dir w1.files =
        (eligible b.dir w1.files).length + (unparsable b.dir mid.files).length ∧
      unparsable b.dir w1.files = unparsable b.dir mid.files ∧
      ((∀ p ∈ w1.files, matchesPattern b.dir p = true →
          (embeddedTimestamp b.dir p).isSome = true) →
        backupFileCount b.dir w1.files ≤ b.config.KeepFiles.toNat) ∧
      (b.config.KeepFiles.toNat < (eligible b.dir mid.files).length →
        (eligible b.dir w1.files).length = b.config.KeepFiles.toNat) ∧
      (∀ x ∈ eligible b.dir w1.files, x ∈ eligible b.dir mid.files) ∧
      (∀ x ∈ eligible b.dir w1.files, ∀ y ∈ eligible b.dir mid.files,
        y ∉ eligible b.dir w1.files → Stamp.le y.2 x.2) ∧
      (∀ p ∈ mid.files, embeddedTimestamp b.dir p = none → p ∈ w1.files) ∧
      (∀ p ∈ w1.files, p ∈ mid.files) := by
  obtain ⟨mid, hprod, hw1⟩ := b.Backup_ok env w w1 r hok
  rw [if_pos hp] at hw1
  subst hw1
  rw [hprod] at hrm
  have hmid : mid.files.Nodup := b.produce_nodup env w mid r hprod hnd
  have hperm := prune_eligible b.config.KeepFiles env.removeFails b.dir mid.files hmid hrm
  have hS := newestFirst_perm (eligible b.dir mid.files)
  have hsorted := newestFirst_sorted (eligible b.dir mid.files)
  have hlen : (eligible b.dir
      (prune b.config.KeepFiles env.removeFails b.dir mid.files)).length =
      min b.config.KeepFiles.toNat (eligible b.dir mid.files).length := by
    rw [hperm.length_eq, List.length_take, hS.length_eq]
  have hoth := prune_others b.config.KeepFiles env.removeFails b.dir mid.files
  have hunp := prune_unparsable b.config.KeepFiles env.removeFails b.dir mid.files
  have hsplit := backupFileCount_split b.dir
    (prune b.config.KeepFiles env.removeFails b.dir mid.files)
  refine ⟨mid, hprod, ?_, ?_, hunp, ?_, ?_, ?_, ?_, hoth.1, hoth.2⟩
  · simp only [hlen]; omega
  · rw [hsplit, hunp]
  · intro hall
    have hnone : unparsable b.dir
        (prune b.config.KeepFiles env.removeFails b.dir mid.files) = [] := by
      unfold unparsable
      rw [List.filter_eq_nil_iff]
      intro p hp1 hp2
      rw [Bool.and_eq_true] at hp2
      have := hall p hp1 hp2.1
      rw [Option.isNone_iff_eq_none] at hp2
      rw [hp2.2] at this
      cases this
    rw [hsplit, hnone]
    simp only [hlen, List.length_nil]; omega
  · intro hmore
    simp only [hlen]; omega
  · intro x hx
    exact hS.subset (List.take_subset _ _ (hperm.subset hx))
  · intro x hx y hy hny
    have hxt := hperm.subset hx
    have hyS : y ∈ newestFirst (eligible b.dir mid.files) := hS.symm.subset hy
    rw [← List.take_append_drop b.config.KeepFiles.toNat
      (newestFirst (eligible b.dir mid.files))] at hyS hsorted
    rcases List.mem_append.1 hyS with hyt | hyd
    · exact absurd (hperm.symm.subset hyt) hny
    · exact (List.pairwise_append.1 hsorted).2.2 x hxt y hyd

/-- C9 at the runs of the repository's test and at names with offsets: two successive runs
with `KeepFiles = 1`, the first compressed and the second not, leave exactly one backup file,
that of the second run; and of files named by timestamps with numeric offsets and fractions
of a second, the run keeps the one that names the latest instant, which here is not the
last in the order of the names. -/
theorem Backup_prune_keeps_most_recent_witness :
    ((sampleBackuper ⟨true, true, true, 1⟩ "tbl_backup_2009-11-17T20:34:58Z.db").Backup
        (sampleEnv false) (sampleWorld [])).2.files =
      ["backups/tbl_backup_2009-11-17T20:34:58Z.db.zst"] ∧
    ((sampleBackuper ⟨true, false, true, 1⟩ "tbl_backup_2009-11-17T20:35:58Z.db").Backup
        (sampleEnv false) (sampleWorld ["backups/tbl_backup_2009-11-17T20:34:58Z.db.zst"])
      ).2.files = ["backups/tbl_backup_2009-11-17T20:35:58Z.db"] ∧
    backupFileCount "backups" ["backups/tbl_backup_2009-11-17T20:35:58Z.db"] ≤ 1 ∧
    ((sampleBackuper ⟨true, false, true, 1⟩ "tbl_backup_2009-11-17T20:35:58Z.db").Backup
        (sampleEnv false) (sampleWorld ["backups/tbl_backup_2009-11-17T22:00:00+05:00.db",
          "backups/tbl_backup_2009-11-17T153458.5-0500.db.zst",
          "backups/tbl_backup_2009-11-18T01:00:00+08:00.db",
          "backups/tbl_backup_2009-11-17T21:35:57+01:00.db", "backups/notes.txt"])
      ).2.files = ["backups/notes.txt", "backups/tbl_backup_2009-11-17T20:35:58Z.db"] := by
  obtain ⟨_, _, _, _, _, h, _⟩ := Backup_prune_keeps_most_recent
    (sampleBackuper ⟨true, false, true, 1⟩ "tbl_backup_2009-11-17T20:35:58Z.db")
    (sampleEnv false) (sampleWorld ["backups/tbl_backup_2009-11-17T20:34:58Z.db.zst"])
    { files := ["backups/tbl_backup_2009-11-17T20:35:58Z.db"]
      size := (((sampleBackuper ⟨true, false, true, 1⟩
        "tbl_backup_2009-11-17T20:35:58Z.db").Backup (sampleEnv false)
        (sampleWorld ["backups/tbl_backup_2009-11-17T20:34:58Z.db.zst"])).2).size }
    _ rfl rfl (by decide) (fun _ _ => rfl)
  exact ⟨rfl, rfl, h (by decide), rfl⟩

/-! ## C10: the fields of a stage in the result -/

theorem World.write_spec (w : World) (path : String) (size : Int) :
    path ∈ (w.write path size).files ∧ (w.write path size).size path = size := by
  unfold World.write
  constructor
  · simp only []
    split_ifs with h
    · exact h
    · simp
  · simp

/-- The compressed file has another path than the artifact it is made from. -/
theorem zst_ne (path : String) : path ++ ".zst" ≠ path := by
  intro h
  have hl := congrArg String.length h
  rw [String.length_append] at hl
  have : ".zst".length = 4 := by decide
  omega

/-- What the vacuum stage does, by whether it is enabled. -/
theorem vacuumStage_spec (enabled : Bool) (env : Env) (path : String) (w : World)
    (v : Staged) (hv : vacuumStage enabled env path w = .ok v) :
    v.path = path ∧
    (enabled = false → v.size = 0 ∧ v.elapsed = 0 ∧ v.world = w) ∧
    (enabled = true → ∃ m, env.vacuum = .ok m ∧ v.size = m.size ∧ v.elapsed = m.elapsed ∧
      v.world = w.write path m.size) := by
  unfold vacuumStage at hv
  cases enabled with
  | false =>
    simp only [Bool.false_eq_true, if_false] at hv
    cases hv
    exact ⟨rfl, fun _ => ⟨rfl, rfl, rfl⟩, fun h => by cases h⟩
  | true =>
    simp only [if_true] at hv
    cases hm : env.vacuum with
    | error e => rw [hm] at hv; cases hv
    | ok m =>
      rw [hm] at hv
      cases hv
      exact ⟨rfl, (fun h => by cases h),
        fun _ => ⟨m, rfl, (w.write_spec path m.size).2, rfl, rfl⟩⟩

/-- What the compression stage does, by whether it is enabled. -/
theorem compressStage_spec (enabled : Bool) (env : Env) (path : String) (w : World)
    (c : Staged) (hc : compressStage enabled env path w = .ok c) :
    (enabled = false → c.path = path ∧ c.size = 0 ∧ c.elapsed = 0 ∧ c.world = w) ∧
    (enabled = true → ∃ m, env.compress = .ok m ∧ c.path = path ++ ".zst" ∧
      c.size = m.size ∧ c.elapsed = m.elapsed ∧
      c.world = (w.write (path ++ ".zst") m.size).remove path) := by
  unfold compressStage at hc
  cases enabled with
  | false =>
    simp only [Bool.false_eq_true, if_false] at hc
    cases hc
    exact ⟨fun _ => ⟨rfl, rfl, rfl, rfl⟩, fun h => by cases h⟩
  | true =>
    simp only [if_true] at hc
    cases hm : env.compress with
    | error e => rw [hm] at hc; cases hc
    | ok m =>
      rw [hm] at hc
      cases hc
      refine ⟨(fun h => by cases h), fun _ => ⟨m, rfl, rfl, ?_, rfl, rfl⟩⟩
      exact (w.write_spec (path ++ ".zst") m.size).2

/-- C10 does not hold as stated: a successful `Backup` with vacuum and compression both
enabled returns all four fields at 0 when both stages leave an empty file in no measurable
time; and when the vacuum takes its time but leaves an empty file, `SizeAfterVacuum` is 0
with the vacuum enabled. -/
theorem Backup_enabled_stage_zero_fields :
    (⟨true, true, false, 0⟩ : Config).Vacuum = true ∧
    (⟨true, true, false, 0⟩ : Config).Compression = true ∧
    (∃ r w1,
      (sampleBackuper ⟨true, true, false, 0⟩ "tbl_backup_2009-11-17T20:34:58Z.db").Backup
        (measuredEnv ⟨0, 0⟩ ⟨0, 0⟩) (sampleWorld []) = (.ok r, w1) ∧
      r.SizeAfterVacuum = 0 ∧ r.VacuumElapsedTime = 0 ∧
      r.SizeAfterCompression = 0 ∧ r.CompressionElapsedTime = 0) ∧
    (∃ r w1,
      (sampleBackuper ⟨true, true, false, 0⟩ "tbl_backup_2009-11-17T20:34:58Z.db").Backup
        (measuredEnv ⟨0, 12000000⟩ ⟨0, 0⟩) (sampleWorld []) = (.ok r, w1) ∧
      r.SizeAfterVacuum = 0 ∧ r.VacuumElapsedTime = 12000000 ∧
      r.SizeAfterCompression = 0 ∧ r.CompressionElapsedTime = 0) :=
  ⟨rfl, rfl, ⟨_, _, rfl, rfl, rfl, rfl, rfl⟩, ⟨_, _, rfl, rfl, rfl, rfl, rfl⟩⟩

/-- C10, amended: in the result of a successful `Backup`, `SizeAfterVacuum` and
`VacuumElapsedTime` are 0 when the vacuum is disabled, and when it is enabled they are the
size the vacuum left the artifact with and the time it took, so each is 0 exactly when the
vacuum is disabled or measured 0; likewise `SizeAfterCompression` and
`CompressionElapsedTime` for the compression. `Size` is the size of the copied file, `Path`
is the path the file creator returned, with the suffix `.zst` added when compression is
enabled, and the file at `Path` exists after the stages with the last size the result
records. A backuper from `NewBackuper` with no options has vacuum, compression and pruning
disabled, and with vacuum and compression disabled the four fields are 0. -/
theorem Backup_stage_fields (b : Backuper) (env : Env) (w w1 : World) (r : BackupResult)
    (hok : b.Backup env w = (.ok r, w1)) :
    ∃ path mid, b.fileCreator b.dir env.timestamp = .ok path ∧
      b.produce env w = (.ok r, mid) ∧
      r.Size = env.copiedSize ∧
      (b.config.Vacuum = false → r.SizeAfterVacuum = 0 ∧ r.VacuumElapsedTime = 0) ∧
      (b.config.Vacuum = true →
        env.vacuum = .ok ⟨r.SizeAfterVacuum, r.VacuumElapsedTime⟩) ∧
      (r.SizeAfterVacuum = 0 ↔
        b.config.Vacuum = false ∨ ∃ m, env.vacuum = .ok m ∧ m.size = 0) ∧
      (r.VacuumElapsedTime = 0 ↔
        b.config.Vacuum = false ∨ ∃ m, env.vacuum = .ok m ∧ m.elapsed = 0) ∧
      (b.config.Compression = false →
        r.SizeAfterCompression = 0 ∧ r.CompressionElapsedTime = 0 ∧ r.Path = path) ∧
      (b.config.Compression = true →
        env.compress = .ok ⟨r.SizeAfterCompression, r.CompressionElapsedTime⟩ ∧
        r.Path = path ++ ".zst") ∧
      (r.SizeAfterCompression = 0 ↔
        b.config.Compression = false ∨ ∃ m, env.compress = .ok m ∧ m.size = 0) ∧
      (r.CompressionElapsedTime = 0 ↔
        b.config.Compression = false ∨ ∃ m, env.compress = .ok m ∧ m.elapsed = 0) ∧
      r.Path ∈ mid.files ∧
      (mid.size r.Path =
        if b.config.Compression = true then r.SizeAfterCompression
        else if b.config.Vacuum = true then r.SizeAfterVacuum else r.Size) ∧
      (∀ sourceOpens create sourcePath backupDir b0,
        NewBackuper sourceOpens create sourcePath backupDir [] = .ok b0 →
        b0.config.Vacuum = false ∧ b0.config.Compression = false ∧
        b0.config.Pruning = false ∧ b0.fileCreator = create) := by
  obtain ⟨mid, hprod, _⟩ := b.Backup_ok env w w1 r hok
  obtain ⟨path, vac, comp, hpath, hv, hc, hmid, hr⟩ := b.produce_ok env w mid r hprod
  obtain ⟨_, hv0, hv1⟩ := vacuumStage_spec _ _ _ _ _ hv
  obtain ⟨hc0, hc1⟩ := compressStage_spec _ _ _ _ _ hc
  have hw0 := w.write_spec path env.copiedSize
  subst hr hmid
  have hvac : path ∈ vac.world.files ∧
      vac.world.size path = if b.config.Vacuum = true then vac.size
        else (w.write path env.copiedSize).size path := by
    cases hd : b.config.Vacuum with
    | false =>
      rw [(hv0 hd).2.2]
      exact ⟨hw0.1, by simp⟩
    | true =>
      obtain ⟨m, _, hs, _, hwv⟩ := hv1 hd
      rw [hwv, hs]
      exact ⟨(World.write_spec _ path m.size).1, by simp [(World.write_spec _ path m.size).2]⟩
  have hdisk : comp.path ∈ comp.world.files ∧
      comp.world.size comp.path =
        if b.config.Compression = true then comp.size
        else if b.config.Vacuum = true then vac.size
        else (w.write path env.copiedSize).size path := by
    cases hd : b.config.Compression with
    | false =>
      obtain ⟨hp, _, _, hwc⟩ := hc0 hd
      rw [hp, hwc]
      exact ⟨hvac.1, by simpa using hvac.2⟩
    | true =>
      obtain ⟨m, _, hp, hs, _, hwc⟩ := hc1 hd
      have hz := World.write_spec vac.world (path ++ ".zst") m.size
      rw [hp, hwc, hs]
      constructor
      · unfold World.remove
        simp only [List.mem_filter, decide_eq_true_eq]
        exact ⟨hz.1, zst_ne path⟩
      · simpa [World.remove] using hz.2
  refine ⟨path, comp.world, hpath, hprod, hw0.2, ?_, ?_, ?_, ?_, ?_, ?_, ?_, ?_, ?_, ?_, ?_⟩
  · intro hd
    exact ⟨(hv0 hd).1, (hv0 hd).2.1⟩
  · intro he
    obtain ⟨m, hm, hs, hel, _⟩ := hv1 he
    simp only [hs, hel, hm]
  · constructor
    · intro hz
      cases hd : b.config.Vacuum with
      | false => exact Or.inl rfl
      | true =>
        obtain ⟨m, hm, hs, _⟩ := hv1 hd
        exact Or.inr ⟨m, hm, by rw [← hs]; exact hz⟩
    · rintro (hd | ⟨m, hm, hz⟩)
      · exact (hv0 hd).1
      · cases hd : b.config.Vacuum with
        | false => exact (hv0 hd).1
        | true =>
          obtain ⟨m1, hm1, hs, _⟩ := hv1 hd
          rw [hm] at hm1
          cases hm1
          simp only [hs, hz]
  · constructor
    · intro hz
      cases hd : b.config.Vacuum with
      | false => exact Or.inl rfl
      | true =>
        obtain ⟨m, hm, _, hel, _⟩ := hv1 hd
        exact Or.inr ⟨m, hm, by rw [← hel]; exact hz⟩
    · rintro (hd | ⟨m, hm, hz⟩)
      · exact (hv0 hd).2.1
      · cases hd : b.config.Vacuum with
        | false => exact (hv0 hd).2.1
        | true =>
          obtain ⟨m1, hm1, _, hel, _⟩ := hv1 hd
          rw [hm] at hm1
          cases hm1
          simp only [hel, hz]
  · intro hd
    exact ⟨(hc0 hd).2.1, (hc0 hd).2.2.1, (hc0 hd).1⟩
  · intro he
    obtain ⟨m, hm, hp, hs, hel, _⟩ := hc1 he
    exact ⟨by simp only [hs, hel, hm], hp⟩
  · constructor
    · intro hz
      cases hd : b.config.Compression with
      | false => exact Or.inl rfl
      | true =>
        obtain ⟨m, hm, _, hs, _⟩ := hc1 hd
        exact Or.inr ⟨m, hm, by rw [← hs]; exact hz⟩
    · rintro (hd | ⟨m, hm, hz⟩)
      · exact (hc0 hd).2.1
      · cases hd : b.config.Compression with
        | false => exact (hc0 hd).2.1
        | true =>
          obtain ⟨m1, hm1, _, hs, _⟩ := hc1 hd
          rw [hm] at hm1
          cases hm1
          simp only [hs, hz]
  · constructor
    · intro hz
      cases hd : b.config.Compression with
      | false => exact Or.inl rfl
      | true =>
        obtain ⟨m, hm, _, _, hel, _⟩ := hc1 hd
        exact Or.inr ⟨m, hm, by rw [← hel]; exact hz⟩
    · rintro (hd | ⟨m, hm, hz⟩)
      · exact (hc0 hd).2.2.1
      · cases hd : b.config.Compression with
        | false => exact (hc0 hd).2.2.1
        | true =>
          obtain ⟨m1, hm1, _, _, hel, _⟩ := hc1 hd
          rw [hm] at hm1
          cases hm1
          simp only [hel, hz]
  · exact hdisk.1
  · exact hdisk.2
  · intro sourceOpens create sourcePath backupDir b0 hnew
    unfold NewBackuper at hnew
    split_ifs at hnew
    cases hnew
    exact ⟨rfl, rfl, rfl, rfl⟩

/-- C10, amended, at the runs of the repository's tests: a backuper with no options returns
a result with the four fields at 0, the size of the copy and the path of the file creator;
with the vacuum enabled the vacuum fields are what the vacuum measured, and the file at the
path of the result has the size after the vacuum. -/
theorem Backup_stage_fields_witness :
    (∃ w1, (sampleBackuper DefaultConfig "tbl_backup_2009-11-17T20:34:58Z.db").Backup
        (sampleEnv false) (sampleWorld []) =
      (.ok { Path := "backups/tbl_backup_2009-11-17T20:34:58Z.db"
             Timestamp := ⟨63394086898651387237⟩
             Size := 311296
             SizeAfterVacuum := 0
             SizeAfterCompression := 0
             ElapsedTime := 50000000
             VacuumElapsedTime := 0
             CompressionElapsedTime := 0 }, w1)) ∧
    ∃ r w1 mid, (sampleBackuper (WithVacuum true DefaultConfig)
        "tbl_backup_2009-11-17T20:34:58Z.db").Backup (sampleEnv false) (sampleWorld []) =
          (.ok r, w1) ∧
      (sampleBackuper (WithVacuum true DefaultConfig)
        "tbl_backup_2009-11-17T20:34:58Z.db").produce (sampleEnv false) (sampleWorld []) =
          (.ok r, mid) ∧
      r.SizeAfterVacuum = 159744 ∧ r.VacuumElapsedTime = 12000000 ∧
      r.SizeAfterCompression = 0 ∧ r.CompressionElapsedTime = 0 ∧
      r.Path ∈ mid.files ∧ mid.size r.Path = 159744 := by
  refine ⟨⟨_, rfl⟩, ?_⟩
  obtain ⟨_, mid, _, hprod, _, _, _, _, _, hc0, _, _, _, hmem, hsize, _⟩ :=
    Backup_stage_fields (sampleBackuper (WithVacuum true DefaultConfig)
      "tbl_backup_2009-11-17T20:34:58Z.db") (sampleEnv false) (sampleWorld []) _ _ rfl
  exact ⟨_, _, mid, rfl, hprod, rfl, rfl, (hc0 rfl).1, (hc0 rfl).2.1, hmem, hsize⟩

/-! ## C11: the default configuration directory -/

/-- The three ways `defaultConfigLocation` can go: a non-empty flag is returned as it is; with
an empty flag a failed lookup of the home directory gives the empty path and an error, and a
successful one gives the home directory joined with `.tblk`. -/
theorem defaultConfigLocation_cases (dirFlag : String) (homeDir : Except String String) :
    (dirFlag ≠ "" → defaultConfigLocation dirFlag homeDir = (dirFlag, none)) ∧
    (∀ err, dirFlag = "" → homeDir = .error err →
      defaultConfigLocation dirFlag homeDir = ("", some ("home dir: " ++ err))) ∧
    (∀ home, dirFlag = "" → homeDir = .ok home →
      defaultConfigLocation dirFlag homeDir = (pathJoin [home, ".tblk"], none)) := by
  refine ⟨?_, ?_, ?_⟩
  · intro h
    unfold defaultConfigLocation
    rw [if_neg h]
  · intro err h herr
    unfold defaultConfigLocation
    rw [if_pos h, herr]
  · intro home h hhome
    unfold defaultConfigLocation
    rw [if_pos h, hhome]

theorem splitSlash_ne_nil (cs : List Char) : splitSlash cs ≠ [] := by
  cases cs with
  | nil => simp [splitSlash]
  | cons c cs =>
    unfold splitSlash
    rw [List.foldr_cons]
    split_ifs
    · simp
    · split <;> simp

/-- Splitting at the slashes goes through a slash. -/
theorem splitSlash_append (a b : List Char) :
    splitSlash (a ++ '/' :: b) = splitSlash a ++ splitSlash b := by
  induction a with
  | nil => simp [splitSlash]
  | cons c a ih =>
    have hne := splitSlash_ne_nil a
    unfold splitSlash at ih hne ⊢
    rw [List.cons_append, List.foldr_cons, List.foldr_cons, ih]
    split_ifs
    · rfl
    · rcases hfa : List.foldr _ [[]] a with _ | ⟨seg, rest⟩
      · exact absurd hfa hne
      · rfl

/-- The last element of a list of elements ends the path they are joined to. -/
theorem intercalate_append_singleton (sep x : List Char) (l : List (List Char)) :
    x <:+ List.intercalate sep (l ++ [x]) := by
  induction l with
  | nil => simp [List.intercalate, List.intersperse]
  | cons a l ih =>
    cases l with
    | nil =>
      have e : List.intercalate sep ([a] ++ [x]) = (a ++ sep) ++ x := by
        simp [List.intercalate, List.intersperse]
      rw [e]
      exact List.suffix_append _ _
    | cons b l =>
      have e : List.intercalate sep (a :: b :: l ++ [x]) =
          a ++ sep ++ List.intercalate sep (b :: l ++ [x]) := by
        simp [List.intercalate, List.intersperse]
      rw [e]
      exact List.IsSuffix.trans ih (List.suffix_append _ _)

/-- Whatever the home directory, the directory `path.Join(home, ".tblk")` ends in the
element `.tblk`. -/
theorem pathJoin_tblk_suffix (home : String) :
    ".tblk".toList <:+ (pathJoin [home, ".tblk"]).toList := by
  by_cases h : home = ""
  · subst h
    have e : pathJoin ["", ".tblk"] = ".tblk" := by decide
    rw [e]
  · have hdrop : List.dropWhile (fun e : String => decide (e = "")) [home, ".tblk"] =
        [home, ".tblk"] := by
      simp [List.dropWhile, h]
    have hjoin : String.intercalate "/" [home, ".tblk"] = home ++ "/" ++ ".tblk" := rfl
    have hdata : (home ++ "/" ++ ".tblk").toList = home.toList ++ '/' :: ".tblk".toList := by
      simp [String.toList]
    have hq : home ++ "/" ++ ".tblk" ≠ "" := by
      intro hq
      have := congrArg String.toList hq
      rw [hdata] at this
      simp at this
    have hsplit : splitSlash ".tblk".toList = [".tblk".toList] := by decide
    have hstep : ∀ (r : Bool) (K : List (List Char)),
        cleanStep r K ".tblk".toList = ".tblk".toList :: K := by
      intro r K
      unfold cleanStep
      rw [if_neg (by decide), if_neg (by decide)]
    unfold pathJoin
    rw [hdrop]
    simp only [hjoin]
    unfold pathClean
    rw [if_neg hq]
    simp only [hdata, splitSlash_append, hsplit, List.foldl_append, List.foldl_cons,
      List.foldl_nil, hstep, List.reverse_cons]
    split_ifs with hr hk
    · exact (intercalate_append_singleton _ _ _).trans (List.suffix_cons _ _)
    · simp at hk
    · exact intercalate_append_singleton _ _ _

/-- With no `--dir` flag and a home directory that does not itself end in `.tblk`, the
directory returned is not the home directory. -/
theorem defaultConfigLocation_ne_home (home : String)
    (hhome : ¬ ".tblk".toList <:+ home.toList) :
    (defaultConfigLocation "" (.ok home)).1 ≠ home := by
  intro h
  apply hhome
  have hs := pathJoin_tblk_suffix home
  have e : (defaultConfigLocation "" (.ok home)).1 = pathJoin [home, ".tblk"] := rfl
  rw [← e, h] at hs
  exact hs

/-- C11, evaluated where the code departs from it: `init` or `daemon` without `--dir`, the
home directory being `/home/user`. The directory returned is `/home/user/.tblk`, not the home
directory that the usage text `(default: $HOME)` names, and `config.toml` is looked for at
`/home/user/.tblk/config.toml`, not at `/home/user/config.toml`. The other parts of the claim
hold: a non-empty flag is returned as it is, and a failed lookup of the home directory gives
the empty path and an error. -/
theorem defaultConfigLocation_default_appends_tblk :
    defaultConfigLocation "" (.ok "/home/user") = ("/home/user/.tblk", none) ∧
    (defaultConfigLocation "" (.ok "/home/user")).1 ≠ "/home/user" ∧
    configFile "" (.ok "/home/user") = .ok "/home/user/.tblk/config.toml" ∧
    configFile "" (.ok "/home/user") ≠ .ok "/home/user/config.toml" ∧
    defaultConfigLocation "/etc/tblk" (.ok "/home/user") = ("/etc/tblk", none) ∧
    configFile "/etc/tblk" (.ok "/home/user") = .ok "/etc/tblk/config.toml" ∧
    defaultConfigLocation "" (.error "user not found") =
      ("", some "home dir: user not found") := by
  refine ⟨by decide, by decide, rfl, ?_, by decide, rfl, by decide⟩
  intro h
  have e : configFile "" (.ok "/home/user") = .ok "/home/user/.tblk/config.toml" := rfl
  rw [e] at h
  exact absurd (Except.ok.inj h) (by decide)

end Tblbk
